import Mathlib

/-!
# Verification of the SND-Bench benchmark aggregator

A shallow embedding of `scripts/aggregate-benchmarks.py` (class
`BenchmarkAggregator`): the aggregation fold (`aggregate_data`), the
post-pass statistics (`_calculate_statistics`), filtering and sorting
(`filter_runs`, `sort_runs`) and the two emitters (`generate_metadata`,
`export_csv`).

Modelling choices:
* Python floats are modelled as exact rationals (`ℚ`); the only operation
  that leaves `ℚ` is the square root inside `statistics.stdev`, which is
  abstracted by an explicit parameter `sqrtQ : ℚ → ℚ` threaded through the
  statistics pass.
* Python dicts (which preserve insertion order) are modelled as ordered
  association lists with get-or-default (`alGetD`) and order-preserving
  store (`alStore`), mirroring `defaultdict` access.
* Python exceptions are modelled with `Except String`; the second-pass
  `.append` on an already-summarized task entry raises in Python and is an
  `Except.error` here.
* `datetime.fromisoformat` is abstracted by a parameter
  `parse : String → Option D` into an arbitrary linearly ordered type `D`;
  `none` models a raised `ValueError`.
-/

namespace SndBench

attribute [local semireducible] Rat.mul Rat.inv Rat.add Rat.sub

/-! ## Ordered association lists (Python dict model) -/

/-- Lookup in an ordered association list (first binding of the key wins). -/
def alFind {α : Type} : List (String × α) → String → Option α
  | [], _ => none
  | (k, v) :: t, key => if k = key then some v else alFind t key

/-- Python `d.get(key, default)` / `defaultdict` read: bound value or default. -/
def alGetD {α : Type} (l : List (String × α)) (key : String) (d : α) : α :=
  (alFind l key).getD d

/-- Order-preserving store: overwrite the existing binding in place, or append a
fresh key at the end (Python dicts keep insertion order). -/
def alStore {α : Type} : List (String × α) → String → α → List (String × α)
  | [], key, v => [(key, v)]
  | (k, w) :: t, key, v =>
    if k = key then (key, v) :: t else (k, w) :: alStore t key v

/-! ## Strings: lowercase and substring containment (Python `lower`, `in`) -/

/-- The Python `str.lower()` of a string (per-character lowercase). -/
def lowerStr (s : String) : String :=
  String.mk (s.toList.map Char.toLower)

/-- Whether the first list is an initial segment of the second. -/
def leadMatch : List Char → List Char → Bool
  | [], _ => true
  | _ :: _, [] => false
  | a :: as, b :: bs => a = b && leadMatch as bs

/-- Whether `nd` occurs as a contiguous segment of the second list. -/
def hasSub (nd : List Char) : List Char → Bool
  | [] => nd.isEmpty
  | c :: t => leadMatch nd (c :: t) || hasSub nd t

/-- Python `needle in hay` on strings: contiguous substring containment. -/
def strIn (needle hay : String) : Bool :=
  hasSub needle.toList hay.toList

/-! ## Python's stable sort -/

/-- Insert `x` in front of the first element `y` with `le x y`; later elements
of the list are never reordered. -/
def insertSorted {α : Type} (le : α → α → Bool) (x : α) : List α → List α
  | [] => [x]
  | y :: ys => if le x y then x :: y :: ys else y :: insertSorted le x ys

/-- Stable sort with respect to the total preorder `le` (extensionally the
behaviour of Python's stable `sorted`). -/
def stableSortBy {α : Type} (le : α → α → Bool) : List α → List α
  | [] => []
  | x :: xs => insertSorted le x (stableSortBy le xs)

/-- Python `sorted(l, key=key, reverse=reverse)`: stable sort, ascending on the
key, or descending (with ties still in original order) when `reverse`. -/
def pysorted {α κ : Type} [LinearOrder κ] (key : α → κ) (reverse : Bool)
    (l : List α) : List α :=
  stableSortBy (fun a b => if reverse then decide (key b ≤ key a)
                           else decide (key a ≤ key b)) l

/-! ## The `statistics` module: mean, median, sample standard deviation -/

/-- Python `statistics.mean`: sum divided by length. -/
def pymean (l : List ℚ) : ℚ := l.sum / l.length

/-- Ascending sort of rationals (the copy `statistics.median` sorts). -/
def sortQ (l : List ℚ) : List ℚ :=
  stableSortBy (fun a b => decide (a ≤ b)) l

/-- Python `statistics.median`: middle element of the ascending-sorted data, or
the average of the two middle elements for an even count. -/
def pymedian (l : List ℚ) : ℚ :=
  let s := sortQ l
  let n := s.length
  if n % 2 = 1 then s.getD (n / 2) 0
  else (s.getD (n / 2 - 1) 0 + s.getD (n / 2) 0) / 2

/-- The Bessel-corrected sample variance: sum of squared deviations from the
mean, divided by `n - 1`. -/
def besselVar (l : List ℚ) : ℚ :=
  (l.map (fun x => (x - pymean l) ^ 2)).sum / ((l.length : ℚ) - 1)

/-- Python `statistics.stdev`: square root of the Bessel-corrected sample
variance. The floating-point square root is abstracted by `sqrtQ`. -/
def pystdev (sqrtQ : ℚ → ℚ) (l : List ℚ) : ℚ :=
  sqrtQ (besselVar l)

/-! ## Python `round(x, 4)` -/

/-- Round to the nearest integer, ties to even (Python `round` semantics). -/
def roundHalfEven (x : ℚ) : ℤ :=
  let f := ⌊x⌋
  let r := x - f
  if r < 1/2 then f
  else if r > 1/2 then f + 1
  else if f % 2 = 0 then f else f + 1

/-- Python `round(x, 4)`: round to four decimal places. -/
def round4 (x : ℚ) : ℚ :=
  (roundHalfEven (x * 10000) : ℚ) / 10000

/-! ## Data model: run records -/

/-- One entry of the optional `wandb_history` list attached to a run record;
`get` on a missing key yields `none`. -/
structure WandbEntry where
  name : Option String
  url : Option String
deriving DecidableEq

/-- One run's loaded `data.json` record.  Fields read with a uniform default
everywhere in the source (`timestamp`, `average_accuracy`, `results`,
`wandb_history`) are stored with the default merged in; fields whose default
differs between call sites (`run_id`, `_run_dir`, `model.name`) stay
`Option`. -/
structure RunRecord where
  run_id : Option String
  run_dir : Option String
  model_name : Option String
  timestamp : String
  average_accuracy : ℚ
  results : List (String × List (String × ℚ))
  wandb_history : List WandbEntry
deriving DecidableEq

/-- The run identifier: `run.get("run_id", run.get("_run_dir", "unknown"))`. -/
def RunRecord.resolvedId (r : RunRecord) : String :=
  r.run_id.getD (r.run_dir.getD "unknown")

/-! ## Data model: aggregation state -/

/-- A value of `model_stats[m]["task_results"][t]`: a list of accuracies during
the fold, replaced by an `avg`/`std`/`samples` summary by the post-pass. -/
inductive TaskEntry where
  | lst : List ℚ → TaskEntry
  | summary : ℚ → ℚ → ℕ → TaskEntry
deriving DecidableEq

/-- A `best_run`/`worst_run` snapshot. -/
structure RunSnap where
  run_id : String
  accuracy : ℚ
  timestamp : String
deriving DecidableEq

/-- The per-model statistics dict created by the `model_stats` defaultdict. -/
structure ModelStat where
  runs : List String
  accuracies : List ℚ
  best_run : Option RunSnap
  worst_run : Option RunSnap
  avg_accuracy : ℚ
  std_accuracy : ℚ
  median_accuracy : ℚ
  total_runs : ℕ
  task_results : List (String × TaskEntry)
deriving DecidableEq

/-- The defaultdict initial value for a model. -/
def ModelStat.init : ModelStat :=
  ⟨[], [], none, none, 0, 0, 0, 0, []⟩

/-- One `(model, accuracy, run_id)` triple of a task's `accuracies` list. -/
structure TaskTriple where
  model : String
  accuracy : ℚ
  run_id : String
deriving DecidableEq

/-- The per-task statistics dict created by the `task_stats` defaultdict. -/
structure TaskStat where
  models : List String
  accuracies : List TaskTriple
  avg_accuracy : ℚ
  std_accuracy : ℚ
  best_model : Option (String × ℚ)
  worst_model : Option (String × ℚ)
deriving DecidableEq

/-- The defaultdict initial value for a task. -/
def TaskStat.init : TaskStat :=
  ⟨[], [], 0, 0, none, none⟩

/-- The aggregator's mutable tables. -/
structure AggState where
  model_stats : List (String × ModelStat)
  task_stats : List (String × TaskStat)
deriving DecidableEq

/-- The state after `__init__` (or after `clear()` on both tables). -/
def AggState.empty : AggState := ⟨[], []⟩

/-! ## `aggregate_data`: the fold over run records -/

/-- One iteration of the task loop in `aggregate_data`: extract the task
accuracy with `task_results.get("accuracy", 0)`, append it to the model's
per-task list (a Python `AttributeError` if the entry was already summarized
into a dict by a previous post-pass), then update the task's statistics. -/
def stepTask (model_name run_id : String)
    (st : ModelStat × List (String × TaskStat))
    (p : String × List (String × ℚ)) :
    Except String (ModelStat × List (String × TaskStat)) :=
  let task_name := p.1
  let task_accuracy := (alFind p.2 "accuracy").getD 0
  match alGetD st.1.task_results task_name (.lst []) with
  | .summary _ _ _ => .error "AttributeError: dict object has no attribute append"
  | .lst l =>
    let ms := { st.1 with
      task_results := alStore st.1.task_results task_name (.lst (l ++ [task_accuracy])) }
    let ts := alGetD st.2 task_name TaskStat.init
    let ts := if model_name ∈ ts.models then ts
              else { ts with models := ts.models ++ [model_name] }
    let ts := { ts with
      accuracies := ts.accuracies ++ [⟨model_name, task_accuracy, run_id⟩] }
    .ok (ms, alStore st.2 task_name ts)

/-- The task loop of `aggregate_data`, over the record's `results` items. -/
def foldTasks (model_name run_id : String) :
    ModelStat × List (String × TaskStat) → List (String × List (String × ℚ)) →
    Except String (ModelStat × List (String × TaskStat))
  | st, [] => .ok st
  | st, p :: rest =>
    match stepTask model_name run_id st p with
    | .error e => .error e
    | .ok st' => foldTasks model_name run_id st' rest

/-- The model-level updates at the top of `aggregate_data`'s main loop: append
to `runs`/`accuracies`, bump `total_runs`, then update `best_run` and
`worst_run` by strict comparison (the first record initializes both). -/
def bumpModel (run_id : String) (avg_accuracy : ℚ) (ts : String)
    (ms : ModelStat) : ModelStat :=
  let ms := { ms with
    runs := ms.runs ++ [run_id],
    accuracies := ms.accuracies ++ [avg_accuracy],
    total_runs := ms.total_runs + 1 }
  let ms := match ms.best_run with
    | none => { ms with best_run := some ⟨run_id, avg_accuracy, ts⟩ }
    | some b =>
      if avg_accuracy > b.accuracy then
        { ms with best_run := some ⟨run_id, avg_accuracy, ts⟩ }
      else ms
  match ms.worst_run with
  | none => { ms with worst_run := some ⟨run_id, avg_accuracy, ts⟩ }
  | some w =>
    if avg_accuracy < w.accuracy then
      { ms with worst_run := some ⟨run_id, avg_accuracy, ts⟩ }
    else ms

/-- One iteration of `aggregate_data`'s main loop: resolve the model name and
run id, apply the model-level updates, then run the task loop. -/
def stepRecord (s : AggState) (run : RunRecord) : Except String AggState :=
  let model_name := run.model_name.getD "unknown"
  let run_id := run.resolvedId
  let ms := bumpModel run_id run.average_accuracy run.timestamp
              (alGetD s.model_stats model_name ModelStat.init)
  match foldTasks model_name run_id (ms, s.task_stats) run.results with
  | .error e => .error e
  | .ok (ms', tstats) => .ok ⟨alStore s.model_stats model_name ms', tstats⟩

/-- The main loop of `aggregate_data` over `self.all_runs`. -/
def foldRecords : AggState → List RunRecord → Except String AggState
  | s, [] => .ok s
  | s, r :: rest =>
    match stepRecord s r with
    | .error e => .error e
    | .ok s' => foldRecords s' rest

/-! ## `_calculate_statistics`: the post-pass -/

/-- Collapse one model's per-task accuracy list into its summary, as the
`task_results` loop of `_calculate_statistics` does.  An entry that is already
a summary dict is truthy, so Python would call `statistics.mean` on a dict of
strings and raise a `TypeError`. -/
def summarizeTask (sqrtQ : ℚ → ℚ) : TaskEntry → Except String TaskEntry
  | .lst [] => .ok (.lst [])
  | .lst l =>
    .ok (.summary (pymean l) (if l.length > 1 then pystdev sqrtQ l else 0) l.length)
  | .summary _ _ _ => .error "TypeError: unsupported operand type for sum: str"

/-- The `task_results` loop of `_calculate_statistics` over one model. -/
def mapTaskResults (sqrtQ : ℚ → ℚ) :
    List (String × TaskEntry) → Except String (List (String × TaskEntry))
  | [] => .ok []
  | (k, e) :: t =>
    match summarizeTask sqrtQ e with
    | .error msg => .error msg
    | .ok e' =>
      match mapTaskResults sqrtQ t with
      | .error msg => .error msg
      | .ok t' => .ok ((k, e') :: t')

/-- The model half of `_calculate_statistics`: mean, median, sample standard
deviation (0 below two observations), then the per-task summaries. -/
def calcModelStat (sqrtQ : ℚ → ℚ) (st : ModelStat) : Except String ModelStat :=
  if st.accuracies = [] then .ok st
  else
    match mapTaskResults sqrtQ st.task_results with
    | .error msg => .error msg
    | .ok tr =>
      .ok { st with
        avg_accuracy := pymean st.accuracies,
        median_accuracy := pymedian st.accuracies,
        std_accuracy :=
          if st.accuracies.length > 1 then pystdev sqrtQ st.accuracies else 0,
        task_results := tr }

/-- The model loop of `_calculate_statistics`. -/
def mapModelStats (sqrtQ : ℚ → ℚ) :
    List (String × ModelStat) → Except String (List (String × ModelStat))
  | [] => .ok []
  | (k, st) :: t =>
    match calcModelStat sqrtQ st with
    | .error msg => .error msg
    | .ok st' =>
      match mapModelStats sqrtQ t with
      | .error msg => .error msg
      | .ok t' => .ok ((k, st') :: t')

/-- Group a task's triples by model, in first-occurrence order
(the `model_accuracies` defaultdict of `_calculate_statistics`). -/
def groupByModel (l : List TaskTriple) : List (String × List ℚ) :=
  l.foldl (fun acc tr => alStore acc tr.model (alGetD acc tr.model [] ++ [tr.accuracy])) []

/-- Python `max(items, key=lambda x: x[1])`: the first pair with maximal second
component (replacement only on strictly greater values). -/
def maxBySnd (l : List (String × ℚ)) : Option (String × ℚ) :=
  l.foldl (fun acc p =>
    match acc with
    | none => some p
    | some q => if p.2 > q.2 then some p else acc) none

/-- Python `min(items, key=lambda x: x[1])`: the first pair with minimal second
component. -/
def minBySnd (l : List (String × ℚ)) : Option (String × ℚ) :=
  l.foldl (fun acc p =>
    match acc with
    | none => some p
    | some q => if p.2 < q.2 then some p else acc) none

/-- The task half of `_calculate_statistics`: overall mean, standard deviation
only when more than one triple, and best/worst model by per-model means. -/
def calcTaskStat (sqrtQ : ℚ → ℚ) (st : TaskStat) : TaskStat :=
  if st.accuracies = [] then st
  else
    let model_accuracies := groupByModel st.accuracies
    let all_accuracies := st.accuracies.map (·.accuracy)
    let st := { st with avg_accuracy := pymean all_accuracies }
    let st := if all_accuracies.length > 1 then
                { st with std_accuracy := pystdev sqrtQ all_accuracies }
              else st
    let model_avgs := model_accuracies.map (fun p => (p.1, pymean p.2))
    match maxBySnd model_avgs, minBySnd model_avgs with
    | some b, some w => { st with best_model := some b, worst_model := some w }
    | _, _ => st

/-- `_calculate_statistics`: the model loop (which can raise on a re-entered
pass), then the task loop. -/
def calcStatsE (sqrtQ : ℚ → ℚ) (s : AggState) : Except String AggState :=
  match mapModelStats sqrtQ s.model_stats with
  | .error e => .error e
  | .ok ms => .ok ⟨ms, s.task_stats.map (fun p => (p.1, calcTaskStat sqrtQ p.2))⟩

/-- `aggregate_data`: fold all runs into the current tables, then run
`_calculate_statistics`. -/
def aggregate_data (sqrtQ : ℚ → ℚ) (s : AggState) (all_runs : List RunRecord) :
    Except String AggState :=
  match foldRecords s all_runs with
  | .error e => .error e
  | .ok s' => calcStatsE sqrtQ s'

/-! ## `filter_runs` and `sort_runs` -/

/-- Python truthiness of an optional string argument: present and non-empty. -/
def optTruthy : Option String → Bool
  | none => false
  | some s => !s.isEmpty

/-- `timestamp.replace("Z", "+00:00")`. -/
def replaceZ (ts : String) : String :=
  String.mk (ts.toList.foldr
    (fun c acc => if c = 'Z' then '+' :: '0' :: '0' :: ':' :: '0' :: '0' :: acc
                  else c :: acc) [])

/-- A `logger.warning` event from the date-filter `except` branch, carrying the
raw `run_id` field and the offending timestamp (message formatting elided). -/
structure DateWarn where
  run_id : Option String
  timestamp : String
deriving DecidableEq

/-- Outcome of the `try` block of the date filter on a non-empty timestamp. -/
inductive DateOutcome where
  | keep
  | drop
  | warnKeep
deriving DecidableEq

/-- The `try` block of the date filter: parse the (Z-normalized) timestamp and
the given bounds, dropping the record only when every needed parse succeeds
and the date falls outside a bound; any parse failure is the `except` path. -/
def dateEval {D : Type} [LinearOrder D] (parse : String → Option D)
    (start_date end_date : Option String) (ts : String) : DateOutcome :=
  match parse (replaceZ ts) with
  | none => .warnKeep
  | some d =>
    match (if optTruthy start_date then
             (parse (start_date.getD "")).map (fun sd => decide (d < sd))
           else some false) with
    | none => .warnKeep
    | some true => .drop
    | some false =>
      match (if optTruthy end_date then
               (parse (end_date.getD "")).map (fun ed => decide (d > ed))
             else some false) with
      | none => .warnKeep
      | some true => .drop
      | some false => .keep

/-- One iteration of the `filter_runs` loop: whether the record is kept, and
the date warnings it logs.  Mirrors the source's early `continue`s: model
substring filter, task membership filter, accuracy bounds, then the date
filter (all string criteria guarded by Python truthiness). -/
def checkRecord {D : Type} [LinearOrder D] (parse : String → Option D)
    (model_filter task_filter : Option String)
    (min_accuracy max_accuracy : Option ℚ)
    (start_date end_date : Option String) (run : RunRecord) :
    Bool × List DateWarn :=
  if optTruthy model_filter &&
     !(strIn (lowerStr (model_filter.getD ""))
             (lowerStr (run.model_name.getD ""))) then (false, [])
  else if optTruthy task_filter &&
          !(decide ((task_filter.getD "") ∈ run.results.map (·.1))) then (false, [])
  else if (match min_accuracy with
           | some mn => decide (run.average_accuracy < mn)
           | none => false) then (false, [])
  else if (match max_accuracy with
           | some mx => decide (run.average_accuracy > mx)
           | none => false) then (false, [])
  else if optTruthy start_date || optTruthy end_date then
    if run.timestamp.isEmpty then (true, [])
    else
      match dateEval parse start_date end_date run.timestamp with
      | .keep => (true, [])
      | .drop => (false, [])
      | .warnKeep => (true, [⟨run.run_id, run.timestamp⟩])
  else (true, [])

/-- `filter_runs`: the surviving records in input order, together with the
logged date warnings. -/
def filter_runs {D : Type} [LinearOrder D] (parse : String → Option D)
    (all_runs : List RunRecord)
    (model_filter task_filter : Option String)
    (min_accuracy max_accuracy : Option ℚ)
    (start_date end_date : Option String) : List RunRecord × List DateWarn :=
  match all_runs with
  | [] => ([], [])
  | r :: rest =>
    let c := checkRecord parse model_filter task_filter min_accuracy max_accuracy
               start_date end_date r
    let rec' := filter_runs parse rest model_filter task_filter min_accuracy
                  max_accuracy start_date end_date
    ((if c.1 then r :: rec'.1 else rec'.1), c.2 ++ rec'.2)

/-- `sort_runs`: stable sort by the selected key (descending when `reverse`);
an unknown key falls back to the timestamp key, and the boolean records the
`logger.warning` on that path. -/
def sort_runs (runs : List RunRecord) (sort_by : String) (reverse : Bool) :
    List RunRecord × Bool :=
  if sort_by = "timestamp" then (pysorted (fun r => r.timestamp) reverse runs, false)
  else if sort_by = "accuracy" then
    (pysorted (fun r => r.average_accuracy) reverse runs, false)
  else if sort_by = "model" then
    (pysorted (fun r => r.model_name.getD "") reverse runs, false)
  else (pysorted (fun r => r.timestamp) reverse runs, true)

/-! ## `generate_metadata` -/

/-- First history entry whose `name` is truthy and contains the run id;
`some u` means a match was found with `url` field `u`. -/
def findWandbUrl (run_id : String) : List WandbEntry → Option (Option String)
  | [] => none
  | e :: t =>
    if (match e.name with
        | some n => !n.isEmpty && strIn run_id n
        | none => false) then some e.url
    else findWandbUrl run_id t

/-- One model's entry in the metadata document: counts and rounded aggregate
statistics, with the `best_run`/`worst_run` snapshots and the task performance
table passed through as stored. -/
structure ModelMeta where
  total_runs : ℕ
  avg_accuracy : ℚ
  std_accuracy : ℚ
  median_accuracy : ℚ
  best_run : Option RunSnap
  worst_run : Option RunSnap
  task_performance : List (String × TaskEntry)
deriving DecidableEq

/-- One task's entry in the metadata document. -/
structure TaskMeta where
  total_runs : ℕ
  unique_models : ℕ
  avg_accuracy : ℚ
  std_accuracy : ℚ
  best_model : Option (String × ℚ)
  worst_model : Option (String × ℚ)
deriving DecidableEq

/-- One run's summary in the metadata document. -/
structure RunSummary where
  run_id : String
  model : String
  timestamp : String
  average_accuracy : ℚ
  tasks : List String
  wandb_url : Option String
deriving DecidableEq

/-- The unified metadata document. -/
structure Metadata where
  generated_at : String
  total_runs : ℕ
  total_models : ℕ
  total_tasks : ℕ
  models : List (String × ModelMeta)
  tasks : List (String × TaskMeta)
  runs : List RunSummary
deriving DecidableEq

/-- The model view written by `generate_metadata`: the three aggregate
statistics rounded to four decimal places, everything else as stored. -/
def modelMetaOf (st : ModelStat) : ModelMeta :=
  ⟨st.total_runs, round4 st.avg_accuracy, round4 st.std_accuracy,
   round4 st.median_accuracy, st.best_run, st.worst_run, st.task_results⟩

/-- The task view written by `generate_metadata`. -/
def taskMetaOf (st : TaskStat) : TaskMeta :=
  ⟨st.accuracies.length, st.models.length, round4 st.avg_accuracy,
   round4 st.std_accuracy, st.best_model, st.worst_model⟩

/-- The per-run summary written by `generate_metadata`. -/
def runSummaryOf (run : RunRecord) : RunSummary :=
  ⟨run.resolvedId, run.model_name.getD "unknown", run.timestamp,
   round4 run.average_accuracy, run.results.map (·.1),
   (findWandbUrl run.resolvedId run.wandb_history).getD none⟩

/-- `generate_metadata` (the generation timestamp is a parameter; the file
write is outside the model). -/
def generate_metadata (generated_at : String) (s : AggState)
    (all_runs : List RunRecord) : Metadata :=
  ⟨generated_at, all_runs.length, s.model_stats.length, s.task_stats.length,
   s.model_stats.map (fun p => (p.1, modelMetaOf p.2)),
   s.task_stats.map (fun p => (p.1, taskMetaOf p.2)),
   all_runs.map runSummaryOf⟩

/-! ## `export_csv` -/

/-- One CSV cell as handed to `csv.writer.writerow` (string, float, or int). -/
inductive CsvCell where
  | str : String → CsvCell
  | rat : ℚ → CsvCell
  | nat : ℕ → CsvCell
deriving DecidableEq

/-- The header row written by `export_csv`. -/
def csvHeader : List CsvCell :=
  [.str "Run ID", .str "Model", .str "Timestamp", .str "Average Accuracy",
   .str "Tasks", .str "Task Count", .str "W&B URL"]

/-- One data row of `export_csv`. -/
def csvRowOf (run : RunRecord) : List CsvCell :=
  let run_id := run.resolvedId
  let tasks := run.results.map (·.1)
  let wandb_url := match findWandbUrl run_id run.wandb_history with
    | some u => u.getD ""
    | none => ""
  [.str run_id, .str (run.model_name.getD "unknown"), .str run.timestamp,
   .rat (round4 run.average_accuracy), .str (String.intercalate ", " tasks),
   .nat tasks.length, .str wandb_url]

/-- `export_csv`: the header row followed by one data row per run. -/
def export_csv (all_runs : List RunRecord) : List (List CsvCell) :=
  csvHeader :: all_runs.map csvRowOf

/-! ## Spec-side definitions (for refinement comparisons)

These follow the words of the specification / claims, not the source, and are
only used to compare against the source-derived definitions above. -/

/-- Modelled from the spec: the accuracy-extraction chain claimed in §4.2 —
the value under `accuracy` if present, else under `acc`, else under a
normalized-key variant (a key whose lowercased form reads `accuracy`), else
0. -/
def specExtractAccuracy (tr : List (String × ℚ)) : ℚ :=
  match alFind tr "accuracy" with
  | some v => v
  | none =>
    match alFind tr "acc" with
    | some v => v
    | none =>
      match tr.find? (fun p => lowerStr p.1 = "accuracy") with
      | some p => p.2
      | none => 0

/-- Modelled from the spec: the per-record predicate C6 claims `filter_runs`
implements — case-insensitive substring on the model name, exact key
membership for the task name, inclusive accuracy bounds. -/
def claimC6Keep (model_filter task_filter : Option String)
    (min_accuracy max_accuracy : Option ℚ) (run : RunRecord) : Bool :=
  (match model_filter with
   | none => true
   | some f => strIn (lowerStr f) (lowerStr (run.model_name.getD ""))) &&
  (match task_filter with
   | none => true
   | some t => decide (t ∈ run.results.map (·.1))) &&
  (match min_accuracy with
   | none => true
   | some mn => decide (mn ≤ run.average_accuracy)) &&
  (match max_accuracy with
   | none => true
   | some mx => decide (run.average_accuracy ≤ mx))

/-- Modelled from the spec: the header row C9 claims for the tabular export,
whose last column is named `External URL`. -/
def specCsvHeader : List CsvCell :=
  [.str "Run ID", .str "Model", .str "Timestamp", .str "Average Accuracy",
   .str "Tasks", .str "Task Count", .str "External URL"]

/-- Decidable equality for `Except`, for evaluating concrete outcomes. -/
instance instDecEqExcept {e a : Type} [DecidableEq e] [DecidableEq a] :
    DecidableEq (Except e a) := fun x y =>
  match x, y with
  | .error u, .error v =>
    if h : u = v then .isTrue (by rw [h]) else .isFalse (by simp [h])
  | .ok u, .ok v =>
    if h : u = v then .isTrue (by rw [h]) else .isFalse (by simp [h])
  | .error _, .ok _ => .isFalse (by simp)
  | .ok _, .error _ => .isFalse (by simp)

/-! ## Invariants of the aggregation fold -/

/-- Every task entry of the model is still a plain list (no summary dict). -/
def cleanMS (st : ModelStat) : Prop :=
  ∀ p ∈ st.task_results, ∃ l, p.2 = TaskEntry.lst l

/-- The count invariant for one model. -/
def lenInv (st : ModelStat) : Prop :=
  st.runs.length = st.accuracies.length ∧ st.accuracies.length = st.total_runs

/-- The fold invariant: every model in the table satisfies the count invariant,
has been fed at least one record, and has only list-valued task entries; the
totals over all models sum to the number of records folded so far. -/
def Inv (s : AggState) (n : ℕ) : Prop :=
  (∀ p ∈ s.model_stats, lenInv p.2 ∧ p.2.total_runs ≠ 0 ∧ cleanMS p.2) ∧
  (s.model_stats.map (fun p => p.2.total_runs)).sum = n

/-! ## Concrete inputs used in witnesses and counterexamples -/

/-- A date parser that always fails (models `fromisoformat` raising). -/
def parseNone : String → Option ℤ := fun _ => none

/-- A small run record with one task result keyed `accuracy`. -/
def wRec1 : RunRecord :=
  ⟨some "r1", none, some "m1", "t1", 1/2, [("t", [("accuracy", 3/10)])], []⟩

/-- The state reached by folding `wRec1` from the empty tables. -/
def wState1 : AggState :=
  (foldRecords AggState.empty [wRec1]).toOption.getD AggState.empty

/-- Four records of one model with accuracies 0.2, 0.4, 0.6, 0.8. -/
def rsW5 : List RunRecord :=
  [⟨some "a", none, some "m", "", 2/10, [], []⟩,
   ⟨some "b", none, some "m", "", 4/10, [], []⟩,
   ⟨some "c", none, some "m", "", 6/10, [], []⟩,
   ⟨some "d", none, some "m", "", 8/10, [], []⟩]

/-- The state after a full aggregation pass over `rsW5`. -/
def wState5 : AggState :=
  (aggregate_data id AggState.empty rsW5).toOption.getD AggState.empty

/-- The state after a full aggregation pass over `[wRec1]` (its task entry is
summarized, so a second pass on it must raise). -/
def wState10 : AggState :=
  (aggregate_data id AggState.empty [wRec1]).toOption.getD AggState.empty

/-- A record whose task result uses the field name `acc`, not `accuracy`. -/
def cRec1 : RunRecord :=
  ⟨some "r1", none, some "m1", "", 1/2, [("t", [("acc", 1/2)])], []⟩

/-- The state reached by folding `cRec1` from the empty tables. -/
def cState1 : AggState :=
  (foldRecords AggState.empty [cRec1]).toOption.getD AggState.empty

/-- A record whose average accuracy 0.123456 does not survive 4-decimal
rounding. -/
def cRec2 : RunRecord :=
  ⟨some "r1", none, some "m1", "t1", 123456/1000000, [], []⟩

/-- The metadata document generated after aggregating `cRec2`. -/
def cMeta2 : Metadata :=
  generate_metadata "g"
    ((aggregate_data id AggState.empty [cRec2]).toOption.getD AggState.empty)
    [cRec2]

/-- A record with one task named `t`. -/
def cRec6 : RunRecord :=
  ⟨some "r1", none, some "m1", "", 1/2, [("t", [])], []⟩

/-- A record with an empty timestamp. -/
def cRec7 : RunRecord :=
  ⟨some "r1", none, some "m1", "", 1/2, [], []⟩

/-- The model stat recorded for `m1` after the pass over `[wRec1]`. -/
def wStat2 : ModelStat :=
  (alFind wState10.model_stats "m1").getD ModelStat.init

/-- A record with a non-empty timestamp (unparseable under `parseNone`). -/
def wRec7 : RunRecord :=
  ⟨some "r1", none, some "m1", "xx", 1/2, [], []⟩

/-- Two records with equal average accuracy, distinct ids, for sort-stability
instances. -/
def sRecA : RunRecord := ⟨some "a1", none, some "x", "1", 1/2, [], []⟩

/-- Second record with the same accuracy as `sRecA`. -/
def sRecB : RunRecord := ⟨some "a2", none, some "y", "2", 1/2, [], []⟩

/-! ## Association-list lemmas -/

theorem alFind_mem {α : Type} {l : List (String × α)} {k : String} {v : α}
    (h : alFind l k = some v) : (k, v) ∈ l := by
  induction l with
  | nil => simp [alFind] at h
  | cons p t ih =>
    obtain ⟨k', w⟩ := p
    by_cases hk : k' = k
    · subst hk
      simp [alFind] at h
      simp [h]
    · simp [alFind, hk] at h
      exact List.mem_cons_of_mem _ (ih h)

theorem alGetD_mem_or_default {α : Type} (l : List (String × α)) (k : String)
    (d : α) : (k, alGetD l k d) ∈ l ∨ alGetD l k d = d := by
  unfold alGetD
  cases h : alFind l k with
  | none => right; rfl
  | some v => left; exact alFind_mem h

theorem alFind_alStore_self {α : Type} (l : List (String × α)) (k : String)
    (v : α) : alFind (alStore l k v) k = some v := by
  induction l with
  | nil => simp [alStore, alFind]
  | cons p t ih =>
    obtain ⟨k', w⟩ := p
    by_cases hk : k' = k
    · subst hk; simp [alStore, alFind]
    · simp [alStore, alFind, hk, ih]

theorem alFind_alStore_ne {α : Type} (l : List (String × α)) (k k' : String)
    (v : α) (h : k ≠ k') : alFind (alStore l k v) k' = alFind l k' := by
  induction l with
  | nil => simp [alStore, alFind, h]
  | cons p t ih =>
    obtain ⟨k₀, w⟩ := p
    by_cases hk : k₀ = k
    · subst hk; simp [alStore, alFind, h]
    · simp [alStore, alFind, hk, ih]

theorem alGetD_alStore_self {α : Type} (l : List (String × α)) (k : String)
    (v d : α) : alGetD (alStore l k v) k d = v := by
  simp [alGetD, alFind_alStore_self]

theorem alGetD_alStore_ne {α : Type} (l : List (String × α)) (k k' : String)
    (v d : α) (h : k ≠ k') : alGetD (alStore l k v) k' d = alGetD l k' d := by
  simp [alGetD, alFind_alStore_ne _ _ _ _ h]

theorem mem_alStore {α : Type} {l : List (String × α)} {k : String} {v : α}
    {p : String × α} (h : p ∈ alStore l k v) : p = (k, v) ∨ p ∈ l := by
  induction l with
  | nil => simpa [alStore] using h
  | cons q t ih =>
    obtain ⟨k', w⟩ := q
    by_cases hk : k' = k
    · subst hk
      simp [alStore] at h
      rcases h with h | h
      · left; simp [h]
      · right; exact List.mem_cons_of_mem _ h
    · simp [alStore, hk] at h
      rcases h with h | h
      · right; simp [h]
      · rcases ih h with h' | h'
        · left; exact h'
        · right; exact List.mem_cons_of_mem _ h'

/-- Storing `v` at `k` where `f v = f (current value) + 1` and `f default = 0`
increments the sum of `f` over all values by one. -/
theorem sum_alStore_succ {α : Type} (f : α → ℕ) (d : α) (hd : f d = 0) :
    ∀ (l : List (String × α)) (k : String) (v : α),
      f v = f (alGetD l k d) + 1 →
      ((alStore l k v).map (fun p => f p.2)).sum =
        (l.map (fun p => f p.2)).sum + 1
  | [], k, v, hv => by
    simp [alStore, alGetD, alFind, hd] at hv ⊢
    exact hv
  | (k', w) :: t, k, v, hv => by
    by_cases hk : k' = k
    · subst hk
      simp [alGetD, alFind] at hv
      simp [alStore, hv]
      omega
    · have hv' : f v = f (alGetD t k d) + 1 := by
        simpa [alGetD, alFind, hk] using hv
      simp [alStore, hk, sum_alStore_succ f d hd t k v hv']
      omega

/-! ## Lemmas about `bumpModel` -/

theorem bumpModel_runs (rid : String) (a : ℚ) (ts : String) (ms : ModelStat) :
    (bumpModel rid a ts ms).runs = ms.runs ++ [rid] := by
  unfold bumpModel
  rcases hb : ms.best_run with _ | b <;> rcases hw : ms.worst_run with _ | w <;>
    simp [hb, hw] <;> repeat first | rfl | (split_ifs <;> simp)

theorem bumpModel_accuracies (rid : String) (a : ℚ) (ts : String)
    (ms : ModelStat) : (bumpModel rid a ts ms).accuracies = ms.accuracies ++ [a] := by
  unfold bumpModel
  rcases hb : ms.best_run with _ | b <;> rcases hw : ms.worst_run with _ | w <;>
    simp [hb, hw] <;> repeat first | rfl | (split_ifs <;> simp)

theorem bumpModel_total (rid : String) (a : ℚ) (ts : String) (ms : ModelStat) :
    (bumpModel rid a ts ms).total_runs = ms.total_runs + 1 := by
  unfold bumpModel
  rcases hb : ms.best_run with _ | b <;> rcases hw : ms.worst_run with _ | w <;>
    simp [hb, hw] <;> repeat first | rfl | (split_ifs <;> simp)

theorem bumpModel_task_results (rid : String) (a : ℚ) (ts : String)
    (ms : ModelStat) : (bumpModel rid a ts ms).task_results = ms.task_results := by
  unfold bumpModel
  rcases hb : ms.best_run with _ | b <;> rcases hw : ms.worst_run with _ | w <;>
    simp [hb, hw] <;> repeat first | rfl | (split_ifs <;> simp)

/-! ## Invariant lemmas for the aggregation fold -/

theorem cleanMS_init : cleanMS ModelStat.init := by
  intro p hp
  simp [ModelStat.init] at hp

theorem cleanMS_alGetD {l : List (String × ModelStat)}
    (h : ∀ p ∈ l, lenInv p.2 ∧ p.2.total_runs ≠ 0 ∧ cleanMS p.2) (k : String) :
    cleanMS (alGetD l k ModelStat.init) := by
  rcases alGetD_mem_or_default l k ModelStat.init with hm | hd
  · exact (h _ hm).2.2
  · rw [hd]; exact cleanMS_init

/-- The task loop never raises on a clean model stat, changes only its
`task_results`, and keeps them clean. -/
theorem foldTasks_clean_ok (mn rid : String) :
    ∀ (tasks : List (String × List (String × ℚ))) (ms : ModelStat)
      (ts : List (String × TaskStat)), cleanMS ms →
      ∃ ms' ts', foldTasks mn rid (ms, ts) tasks = .ok (ms', ts') ∧
        ms'.runs = ms.runs ∧ ms'.accuracies = ms.accuracies ∧
        ms'.total_runs = ms.total_runs ∧ cleanMS ms'
  | [], ms, ts, hc => ⟨ms, ts, rfl, rfl, rfl, rfl, hc⟩
  | (tn, tr) :: rest, ms, ts, hc => by
    have hentry : ∃ l, alGetD ms.task_results tn (.lst []) = .lst l := by
      rcases alGetD_mem_or_default ms.task_results tn (.lst []) with hm | hd
      · exact hc _ hm
      · exact ⟨[], hd⟩
    obtain ⟨l, hl⟩ := hentry
    set a := (alFind tr "accuracy").getD 0 with ha
    set ms₂ : ModelStat :=
      { ms with task_results := alStore ms.task_results tn (.lst (l ++ [a])) } with hms₂
    have hc₂ : cleanMS ms₂ := by
      intro p hp
      rcases mem_alStore hp with h' | h'
      · exact ⟨l ++ [a], by rw [h']⟩
      · exact hc _ h'
    obtain ⟨ms', ts', hfold, h₁, h₂, h₃, h₄⟩ :=
      foldTasks_clean_ok mn rid rest ms₂ _ hc₂
    refine ⟨ms', ts', ?_, h₁, h₂, h₃, h₄⟩
    simp only [foldTasks, stepTask, hl]
    exact hfold

/-- One record always folds in successfully from an invariant-satisfying
state, and preserves the invariant while counting one more record. -/
theorem stepRecord_ok {s : AggState} {n : ℕ} (r : RunRecord) (h : Inv s n) :
    ∃ s', stepRecord s r = .ok s' ∧ Inv s' (n + 1) := by
  obtain ⟨hall, hsum⟩ := h
  set mn := r.model_name.getD "unknown" with hmn
  set ms₀ := alGetD s.model_stats mn ModelStat.init with hms₀
  have hc₀ : cleanMS ms₀ := cleanMS_alGetD hall mn
  set ms₁ := bumpModel r.resolvedId r.average_accuracy r.timestamp ms₀ with hms₁
  have hc₁ : cleanMS ms₁ := by
    rw [hms₁]
    intro p hp
    rw [bumpModel_task_results] at hp
    exact hc₀ _ hp
  obtain ⟨ms', ts', hfold, h₁, h₂, h₃, h₄⟩ :=
    foldTasks_clean_ok mn r.resolvedId r.results ms₁ s.task_stats hc₁
  refine ⟨⟨alStore s.model_stats mn ms', ts'⟩, ?_, ?_, ?_⟩
  · simp only [stepRecord]
    rw [← hmn, ← hms₀, ← hms₁, hfold]
  · intro p hp
    rcases mem_alStore hp with h' | h'
    · have hlen₀ : lenInv ms₀ := by
        rcases alGetD_mem_or_default s.model_stats mn ModelStat.init with hm | hd
        · exact (hall _ hm).1
        · rw [hms₀, hd]; exact ⟨rfl, rfl⟩
      have hr : ms'.runs = ms₀.runs ++ [r.resolvedId] := by
        rw [h₁, hms₁, bumpModel_runs]
      have hacc : ms'.accuracies = ms₀.accuracies ++ [r.average_accuracy] := by
        rw [h₂, hms₁, bumpModel_accuracies]
      have htot : ms'.total_runs = ms₀.total_runs + 1 := by
        rw [h₃, hms₁, bumpModel_total]
      rw [h']
      refine ⟨⟨?_, ?_⟩, ?_, h₄⟩
      · simp [hr, hacc, hlen₀.1]
      · simp [hacc, htot, hlen₀.2]
      · simp [htot]
    · exact hall _ h'
  · have htot : ms'.total_runs = ms₀.total_runs + 1 := by
      rw [h₃, hms₁, bumpModel_total]
    have := sum_alStore_succ (fun st => st.total_runs) ModelStat.init rfl
      s.model_stats mn ms' (by
        show ms'.total_runs = (alGetD s.model_stats mn ModelStat.init).total_runs + 1
        rw [htot, hms₀])
    rw [this, hsum]

/-- The whole fold succeeds from an invariant-satisfying state and counts
every record. -/
theorem foldRecords_ok :
    ∀ (rs : List RunRecord) {s : AggState} {n : ℕ}, Inv s n →
      ∃ s', foldRecords s rs = .ok s' ∧ Inv s' (n + rs.length)
  | [], s, n, h => ⟨s, rfl, by simpa using h⟩
  | r :: rest, s, n, h => by
    obtain ⟨s₁, hstep, hinv₁⟩ := stepRecord_ok r h
    obtain ⟨s', hfold, hinv'⟩ := foldRecords_ok rest hinv₁
    refine ⟨s', ?_, ?_⟩
    · simp only [foldRecords, hstep]
      exact hfold
    · simpa [Nat.add_assoc, Nat.add_comm 1 rest.length] using hinv'

theorem Inv_empty : Inv AggState.empty 0 := by
  constructor
  · intro p hp; simp [AggState.empty] at hp
  · simp [AggState.empty]

/-! ## Lemmas about the post-pass -/

theorem calcModelStat_fields {sqrtQ : ℚ → ℚ} {st st' : ModelStat}
    (h : calcModelStat sqrtQ st = .ok st') :
    st'.runs = st.runs ∧ st'.accuracies = st.accuracies ∧
    st'.total_runs = st.total_runs := by
  unfold calcModelStat at h
  by_cases he : st.accuracies = []
  · simp [he] at h
    simp [← h]
  · simp [he] at h
    cases htr : mapTaskResults sqrtQ st.task_results with
    | error e => rw [htr] at h; simp at h
    | ok tr => rw [htr] at h; simp at h; simp [← h]

theorem calcModelStat_stats {sqrtQ : ℚ → ℚ} {st st' : ModelStat}
    (h : calcModelStat sqrtQ st = .ok st') (hne : st.accuracies ≠ []) :
    st'.avg_accuracy = pymean st.accuracies ∧
    st'.median_accuracy = pymedian st.accuracies ∧
    st'.std_accuracy =
      (if st.accuracies.length > 1 then pystdev sqrtQ st.accuracies else 0) := by
  unfold calcModelStat at h
  simp [hne] at h
  cases htr : mapTaskResults sqrtQ st.task_results with
  | error e => rw [htr] at h; simp at h
  | ok tr => rw [htr] at h; simp at h; simp [← h]

theorem mapModelStats_shape {sqrtQ : ℚ → ℚ} :
    ∀ {l l' : List (String × ModelStat)}, mapModelStats sqrtQ l = .ok l' →
      (∀ q ∈ l', ∃ p ∈ l, q.1 = p.1 ∧ calcModelStat sqrtQ p.2 = .ok q.2) ∧
      l'.map (fun p => p.2.total_runs) = l.map (fun p => p.2.total_runs)
  | [], l', h => by
    simp [mapModelStats] at h
    subst h
    simp
  | (k, st) :: t, l', h => by
    simp only [mapModelStats] at h
    cases hst : calcModelStat sqrtQ st with
    | error e => rw [hst] at h; simp at h
    | ok st' =>
      rw [hst] at h
      cases ht : mapModelStats sqrtQ t with
      | error e => rw [ht] at h; simp at h
      | ok t' =>
        rw [ht] at h
        simp at h
        obtain ⟨hall, hmap⟩ := mapModelStats_shape ht
        subst h
        constructor
        · intro q hq
          rcases List.mem_cons.mp hq with hq | hq
          · exact ⟨(k, st), List.mem_cons_self _ _, by simp [hq], by rw [hq]; exact hst⟩
          · obtain ⟨p, hp, h₁, h₂⟩ := hall q hq
            exact ⟨p, List.mem_cons_of_mem _ hp, h₁, h₂⟩
        · simp [hmap, (calcModelStat_fields hst).2.2]

theorem mapModelStats_find {sqrtQ : ℚ → ℚ} :
    ∀ {l l' : List (String × ModelStat)} {k : String} {st : ModelStat},
      mapModelStats sqrtQ l = .ok l' → alFind l k = some st →
      ∃ st', alFind l' k = some st' ∧ calcModelStat sqrtQ st = .ok st'
  | [], l', k, st, h, hf => by simp [alFind] at hf
  | (k₀, st₀) :: t, l', k, st, h, hf => by
    simp only [mapModelStats] at h
    cases hst : calcModelStat sqrtQ st₀ with
    | error e => rw [hst] at h; simp at h
    | ok st₀' =>
      rw [hst] at h
      cases ht : mapModelStats sqrtQ t with
      | error e => rw [ht] at h; simp at h
      | ok t' =>
        rw [ht] at h
        simp at h
        subst h
        by_cases hk : k₀ = k
        · subst hk
          have hst₀ : st₀ = st := by simpa [alFind] using hf
          subst hst₀
          exact ⟨st₀', by simp [alFind], hst⟩
        · simp only [alFind, if_neg hk] at hf ⊢
          exact mapModelStats_find ht hf

theorem summarizeTask_lst_ok (sqrtQ : ℚ → ℚ) (l : List ℚ) :
    ∃ e', summarizeTask sqrtQ (TaskEntry.lst l) = .ok e' := by
  cases l with
  | nil => exact ⟨TaskEntry.lst [], rfl⟩
  | cons a as =>
    refine ⟨TaskEntry.summary (pymean (a :: as))
      (if (a :: as).length > 1 then pystdev sqrtQ (a :: as) else 0)
      (a :: as).length, ?_⟩
    simp [summarizeTask]

theorem mapTaskResults_clean_ok (sqrtQ : ℚ → ℚ) :
    ∀ (tr : List (String × TaskEntry)),
      (∀ p ∈ tr, ∃ l, p.2 = TaskEntry.lst l) →
      ∃ tr', mapTaskResults sqrtQ tr = .ok tr'
  | [], _ => ⟨[], rfl⟩
  | (k, e) :: t, hc => by
    obtain ⟨l, hl⟩ := hc (k, e) (List.mem_cons_self _ _)
    obtain ⟨t', ht'⟩ := mapTaskResults_clean_ok sqrtQ t
      (fun p hp => hc p (List.mem_cons_of_mem _ hp))
    simp only at hl
    subst hl
    obtain ⟨e', he'⟩ := summarizeTask_lst_ok sqrtQ l
    refine ⟨(k, e') :: t', ?_⟩
    simp only [mapTaskResults, he', ht']

theorem calcModelStat_clean_ok (sqrtQ : ℚ → ℚ) (st : ModelStat)
    (hc : cleanMS st) : ∃ st', calcModelStat sqrtQ st = .ok st' := by
  by_cases he : st.accuracies = []
  · refine ⟨st, ?_⟩
    unfold calcModelStat
    simp [he]
  · obtain ⟨tr', htr'⟩ := mapTaskResults_clean_ok sqrtQ st.task_results hc
    refine ⟨{ st with
      avg_accuracy := pymean st.accuracies,
      median_accuracy := pymedian st.accuracies,
      std_accuracy :=
        if st.accuracies.length > 1 then pystdev sqrtQ st.accuracies else 0,
      task_results := tr' }, ?_⟩
    unfold calcModelStat
    rw [if_neg he, htr']

theorem mapModelStats_clean_ok (sqrtQ : ℚ → ℚ) :
    ∀ (l : List (String × ModelStat)), (∀ p ∈ l, cleanMS p.2) →
      ∃ l', mapModelStats sqrtQ l = .ok l'
  | [], _ => ⟨[], rfl⟩
  | (k, st) :: t, hc => by
    obtain ⟨st', hst'⟩ := calcModelStat_clean_ok sqrtQ st (hc (k, st) (List.mem_cons_self _ _))
    obtain ⟨t', ht'⟩ := mapModelStats_clean_ok sqrtQ t
      (fun p hp => hc p (List.mem_cons_of_mem _ hp))
    refine ⟨(k, st') :: t', ?_⟩
    simp only [mapModelStats, hst', ht']

/-- A full aggregation pass from the empty tables never raises. -/
theorem aggregate_data_empty_ok (sqrtQ : ℚ → ℚ) (rs : List RunRecord) :
    ∃ s, aggregate_data sqrtQ AggState.empty rs = .ok s := by
  obtain ⟨s₁, hfold, hinv⟩ := foldRecords_ok rs Inv_empty
  obtain ⟨ms, hms⟩ := mapModelStats_clean_ok sqrtQ s₁.model_stats
    (fun p hp => (hinv.1 p hp).2.2)
  refine ⟨⟨ms, s₁.task_stats.map (fun p => (p.1, calcTaskStat sqrtQ p.2))⟩, ?_⟩
  simp only [aggregate_data, hfold, calcStatsE, hms]

/-! ## Lemmas about the task loop's appends -/

theorem alFind_map {α β : Type} (f : α → β) :
    ∀ (l : List (String × α)) (k : String),
      alFind (l.map (fun p => (p.1, f p.2))) k = (alFind l k).map f
  | [], _ => rfl
  | (k₀, v) :: t, k => by
    by_cases hk : k₀ = k <;> simp [alFind, hk, alFind_map f t k]

/-- The task loop appends, for every task name `t`, one `(model, accuracy,
run_id)` triple per occurrence of `t` in the record's `results`, with the
accuracy read from the `accuracy` field (default 0). -/
theorem foldTasks_triples (mn rid : String) :
    ∀ (tasks : List (String × List (String × ℚ))) (ms : ModelStat)
      (ts : List (String × TaskStat)) (ms' : ModelStat)
      (ts' : List (String × TaskStat)),
      foldTasks mn rid (ms, ts) tasks = .ok (ms', ts') → ∀ t : String,
      (alGetD ts' t TaskStat.init).accuracies =
        (alGetD ts t TaskStat.init).accuracies ++
          (tasks.filter (fun p => p.1 = t)).map
            (fun p => ⟨mn, (alFind p.2 "accuracy").getD 0, rid⟩)
  | [], ms, ts, ms', ts', h, t => by
    simp only [foldTasks] at h
    obtain ⟨h₁, h₂⟩ : ms = ms' ∧ ts = ts' := by simpa using h
    simp [← h₂]
  | (tn, tr) :: rest, ms, ts, ms', ts', h, t => by
    simp only [foldTasks, stepTask] at h
    cases hentry : alGetD ms.task_results tn (.lst []) with
    | summary a b n => rw [hentry] at h; simp at h
    | lst l =>
      rw [hentry] at h
      simp only at h
      have ih := foldTasks_triples mn rid rest _ _ ms' ts' h t
      by_cases ht : tn = t
      · subst ht
        rw [ih]
        rw [alGetD_alStore_self]
        by_cases hm : mn ∈ (alGetD ts tn TaskStat.init).models <;>
          simp [hm, List.filter_cons, List.append_assoc]
      · rw [ih, alGetD_alStore_ne _ _ _ _ _ ht]
        simp [List.filter_cons, ht]

/-- The task loop appends, for every task name `t` whose entry is still a
plain list, one accuracy per occurrence of `t` in the record's `results`,
read from the `accuracy` field (default 0). -/
theorem foldTasks_model_lists (mn rid : String) :
    ∀ (tasks : List (String × List (String × ℚ))) (ms : ModelStat)
      (ts : List (String × TaskStat)) (ms' : ModelStat)
      (ts' : List (String × TaskStat)),
      foldTasks mn rid (ms, ts) tasks = .ok (ms', ts') → ∀ (t : String) (l : List ℚ),
      alGetD ms.task_results t (.lst []) = .lst l →
      alGetD ms'.task_results t (.lst []) =
        .lst (l ++ (tasks.filter (fun p => p.1 = t)).map
          (fun p => (alFind p.2 "accuracy").getD 0))
  | [], ms, ts, ms', ts', h, t, l, hl => by
    simp only [foldTasks] at h
    obtain ⟨h₁, h₂⟩ : ms = ms' ∧ ts = ts' := by simpa using h
    simp [← h₁, hl]
  | (tn, tr) :: rest, ms, ts, ms', ts', h, t, l, hl => by
    simp only [foldTasks, stepTask] at h
    cases hentry : alGetD ms.task_results tn (.lst []) with
    | summary a b n => rw [hentry] at h; simp at h
    | lst l₀ =>
      rw [hentry] at h
      simp only at h
      have ih := foldTasks_model_lists mn rid rest _ _ ms' ts' h t
      by_cases ht : tn = t
      · subst ht
        have hll : l₀ = l := by rw [hentry] at hl; exact (TaskEntry.lst.injEq _ _).mp hl
        subst hll
        have := ih (l₀ ++ [(alFind tr "accuracy").getD 0]) (by rw [alGetD_alStore_self])
        rw [this]
        simp [List.filter_cons, List.append_assoc]
      · have := ih l (by rw [alGetD_alStore_ne _ _ _ _ _ ht]; exact hl)
        rw [this]
        simp [List.filter_cons, ht]

/-! ## Lemmas about summarized entries and the second pass -/

/-- Within one record's task loop, a task entry that is (or becomes) a
non-empty plain list stays a non-empty plain list. -/
theorem foldTasks_lst_nonempty (mn rid : String) :
    ∀ (tasks : List (String × List (String × ℚ))) (ms : ModelStat)
      (ts : List (String × TaskStat)) (ms' : ModelStat)
      (ts' : List (String × TaskStat)),
      foldTasks mn rid (ms, ts) tasks = .ok (ms', ts') → ∀ t : String,
      ((∃ l, l ≠ [] ∧ alGetD ms.task_results t (.lst []) = .lst l) ∨
        t ∈ tasks.map (·.1)) →
      ∃ l', l' ≠ [] ∧ alGetD ms'.task_results t (.lst []) = .lst l'
  | [], ms, ts, ms', ts', h, t, hd => by
    simp only [foldTasks] at h
    obtain ⟨h₁, h₂⟩ : ms = ms' ∧ ts = ts' := by simpa using h
    rcases hd with hd | hd
    · rw [← h₁]; exact hd
    · simp at hd
  | (tn, tr) :: rest, ms, ts, ms', ts', h, t, hd => by
    simp only [foldTasks, stepTask] at h
    cases hentry : alGetD ms.task_results tn (.lst []) with
    | summary a b n => rw [hentry] at h; simp at h
    | lst l₀ =>
      rw [hentry] at h
      simp only at h
      have ih := foldTasks_lst_nonempty mn rid rest _ _ ms' ts' h t
      by_cases ht : tn = t
      · subst ht
        exact ih (Or.inl ⟨l₀ ++ [(alFind tr "accuracy").getD 0], by simp,
          by rw [alGetD_alStore_self]⟩)
      · rcases hd with hd | hd
        · obtain ⟨l, hne, hl⟩ := hd
          exact ih (Or.inl ⟨l, hne, by rw [alGetD_alStore_ne _ _ _ _ _ ht]; exact hl⟩)
        · simp at hd
          rcases hd with hd | hd
          · exact absurd hd.symm ht
          · exact ih (Or.inr (by simpa using hd))

/-- Once a model's task entry is a non-empty plain list, folding further
records keeps it a non-empty plain list. -/
theorem stepRecord_lst_nonempty {s : AggState} {r : RunRecord} {s' : AggState}
    (h : stepRecord s r = .ok s') (mn t : String)
    (hl : ∃ l, l ≠ [] ∧ alGetD (alGetD s.model_stats mn
      ModelStat.init).task_results t (.lst []) = .lst l) :
    ∃ l', l' ≠ [] ∧ alGetD (alGetD s'.model_stats mn
      ModelStat.init).task_results t (.lst []) = .lst l' := by
  simp only [stepRecord] at h
  cases hf : foldTasks (r.model_name.getD "unknown") r.resolvedId
      (bumpModel r.resolvedId r.average_accuracy r.timestamp
        (alGetD s.model_stats (r.model_name.getD "unknown") ModelStat.init),
       s.task_stats) r.results with
  | error e => rw [hf] at h; simp at h
  | ok pr =>
    rw [hf] at h
    obtain ⟨ms', ts'⟩ := pr
    have hs' : s' = ⟨alStore s.model_stats (r.model_name.getD "unknown") ms', ts'⟩ := by
      simpa using h.symm
    subst hs'
    by_cases hmn : r.model_name.getD "unknown" = mn
    · subst hmn
      rw [alGetD_alStore_self]
      refine foldTasks_lst_nonempty _ _ _ _ _ _ _ hf t (Or.inl ?_)
      obtain ⟨l, hne, hl⟩ := hl
      exact ⟨l, hne, by rw [bumpModel_task_results]; exact hl⟩
    · rw [alGetD_alStore_ne _ _ _ _ _ hmn]
      exact hl

/-- `stepRecord_lst_nonempty`, lifted to a whole sequence of records. -/
theorem foldRecords_lst_nonempty :
    ∀ {rs : List RunRecord} {s s' : AggState}, foldRecords s rs = .ok s' →
      ∀ (mn t : String),
      (∃ l, l ≠ [] ∧ alGetD (alGetD s.model_stats mn
        ModelStat.init).task_results t (.lst []) = .lst l) →
      ∃ l', l' ≠ [] ∧ alGetD (alGetD s'.model_stats mn
        ModelStat.init).task_results t (.lst []) = .lst l'
  | [], s, s', h, mn, t, hl => by
    have hs : s = s' := by simpa [foldRecords] using h
    rw [← hs]; exact hl
  | r :: rest, s, s', h, mn, t, hl => by
    simp only [foldRecords] at h
    cases hstep : stepRecord s r with
    | error e => rw [hstep] at h; simp at h
    | ok s₁ =>
      rw [hstep] at h
      exact foldRecords_lst_nonempty h mn t (stepRecord_lst_nonempty hstep mn t hl)

/-- After a record with task `t` is folded in, that model's entry for `t` is a
non-empty plain list. -/
theorem foldRecords_creates :
    ∀ {rs : List RunRecord} {s s' : AggState}, foldRecords s rs = .ok s' →
      ∀ {r : RunRecord}, r ∈ rs → ∀ {t : String} {tr : List (String × ℚ)},
      (t, tr) ∈ r.results →
      ∃ l, l ≠ [] ∧ alGetD (alGetD s'.model_stats (r.model_name.getD "unknown")
        ModelStat.init).task_results t (.lst []) = .lst l
  | [], s, s', h, r, hr, t, tr, ht => by simp at hr
  | r₀ :: rest, s, s', h, r, hr, t, tr, ht => by
    simp only [foldRecords] at h
    cases hstep : stepRecord s r₀ with
    | error e => rw [hstep] at h; simp at h
    | ok s₁ =>
      rw [hstep] at h
      rcases List.mem_cons.mp hr with hr | hr
      · subst hr
        refine foldRecords_lst_nonempty h _ t ?_
        simp only [stepRecord] at hstep
        cases hf : foldTasks (r.model_name.getD "unknown") r.resolvedId
            (bumpModel r.resolvedId r.average_accuracy r.timestamp
              (alGetD s.model_stats (r.model_name.getD "unknown") ModelStat.init),
             s.task_stats) r.results with
        | error e => rw [hf] at hstep; simp at hstep
        | ok pr =>
          rw [hf] at hstep
          obtain ⟨ms', ts'⟩ := pr
          have hs₁ : s₁ = ⟨alStore s.model_stats (r.model_name.getD "unknown") ms', ts'⟩ := by
            simpa using hstep.symm
          subst hs₁
          rw [alGetD_alStore_self]
          exact foldTasks_lst_nonempty _ _ _ _ _ _ _ hf t
            (Or.inr (by simpa using List.mem_map_of_mem (·.1) ht))
      · exact foldRecords_creates h hr ht

/-- The task loop raises as soon as it reaches a task whose entry was already
summarized into a dict (`.append` on a dict raises in Python). -/
theorem foldTasks_summary_error (mn rid : String) :
    ∀ (tasks : List (String × List (String × ℚ))) (ms : ModelStat)
      (ts : List (String × TaskStat)) (t : String),
      (∃ a b n, alGetD ms.task_results t (.lst []) = .summary a b n) →
      t ∈ tasks.map (·.1) →
      ∃ e, foldTasks mn rid (ms, ts) tasks = .error e
  | [], ms, ts, t, hsum, hmem => by simp at hmem
  | (tn, tr) :: rest, ms, ts, t, hsum, hmem => by
    cases hentry : alGetD ms.task_results tn (.lst []) with
    | summary a b n =>
      refine ⟨"AttributeError: dict object has no attribute append", ?_⟩
      simp only [foldTasks, stepTask, hentry]
    | lst l₀ =>
      have htn : tn ≠ t := by
        intro hteq
        obtain ⟨a, b, n, hs⟩ := hsum
        rw [hteq] at hentry
        rw [hentry] at hs
        simp at hs
      have hmem' : t ∈ rest.map (·.1) := by
        simp at hmem
        rcases hmem with hmem | hmem
        · exact absurd hmem.symm htn
        · simpa using hmem
      obtain ⟨a, b, n, hs⟩ := hsum
      set newEntry : TaskEntry :=
        TaskEntry.lst (l₀ ++ [(alFind tr "accuracy").getD 0]) with hnew
      have hpreserve : alGetD (alStore ms.task_results tn newEntry) t
          (TaskEntry.lst []) = TaskEntry.summary a b n := by
        rw [alGetD_alStore_ne _ _ _ _ _ htn]
        exact hs
      obtain ⟨e, he⟩ := foldTasks_summary_error mn rid rest
        { ms with task_results := alStore ms.task_results tn newEntry }
        (alStore ts tn
          (let tsv := alGetD ts tn TaskStat.init
           let tsv := if mn ∈ tsv.models then tsv
                      else { tsv with models := tsv.models ++ [mn] }
           { tsv with accuracies :=
              tsv.accuracies ++ [⟨mn, (alFind tr "accuracy").getD 0, rid⟩] }))
        t ⟨a, b, n, hpreserve⟩ hmem'
      refine ⟨e, ?_⟩
      simp only [foldTasks, stepTask, hentry]
      exact he

/-- The `task_results` loop of the post-pass on one model, traced through
lookups: each entry found beforehand is summarized in the output. -/
theorem mapTaskResults_find {sqrtQ : ℚ → ℚ} :
    ∀ {tr tr' : List (String × TaskEntry)} {t : String} {e : TaskEntry},
      mapTaskResults sqrtQ tr = .ok tr' → alFind tr t = some e →
      ∃ e', alFind tr' t = some e' ∧ summarizeTask sqrtQ e = .ok e'
  | [], tr', t, e, h, hf => by simp [alFind] at hf
  | (k₀, e₀) :: rest, tr', t, e, h, hf => by
    simp only [mapTaskResults] at h
    cases hs : summarizeTask sqrtQ e₀ with
    | error msg => rw [hs] at h; simp at h
    | ok e₀' =>
      rw [hs] at h
      cases hrest : mapTaskResults sqrtQ rest with
      | error msg => rw [hrest] at h; simp at h
      | ok rest' =>
        rw [hrest] at h
        have htr' : tr' = (k₀, e₀') :: rest' := by simpa using h.symm
        subst htr'
        by_cases hk : k₀ = t
        · subst hk
          have he : e₀ = e := by simpa [alFind] using hf
          subst he
          exact ⟨e₀', by simp [alFind], hs⟩
        · simp only [alFind, if_neg hk] at hf ⊢
          exact mapTaskResults_find hrest hf

/-! ## Claim C3: the count invariant -/

/-- C3: after any aggregation pass — and already after every prefix of the
record sequence is folded in — every model's `runs` list and `accuracies`
list have length equal to its `total_runs` counter, and the sum of
`total_runs` over all models equals the number of records fed to the pass. -/
theorem claim_C3_count_invariant :
    (∀ (pre : List RunRecord) (s : AggState),
      foldRecords AggState.empty pre = .ok s →
      (∀ p ∈ s.model_stats,
        p.2.runs.length = p.2.accuracies.length ∧
        p.2.accuracies.length = p.2.total_runs) ∧
      (s.model_stats.map (fun p => p.2.total_runs)).sum = pre.length) ∧
    (∀ (sqrtQ : ℚ → ℚ) (rs : List RunRecord) (s : AggState),
      aggregate_data sqrtQ AggState.empty rs = .ok s →
      (∀ p ∈ s.model_stats,
        p.2.runs.length = p.2.accuracies.length ∧
        p.2.accuracies.length = p.2.total_runs) ∧
      (s.model_stats.map (fun p => p.2.total_runs)).sum = rs.length) := by
  constructor
  · intro pre s h
    obtain ⟨s', h', hinv⟩ := foldRecords_ok pre Inv_empty
    rw [h] at h'
    have hs : s = s' := by simpa using h'
    subst hs
    exact ⟨fun p hp => (hinv.1 p hp).1, by simpa using hinv.2⟩
  · intro sqrtQ rs s h
    obtain ⟨s₁, hfold, hinv⟩ := foldRecords_ok rs Inv_empty
    have h' : calcStatsE sqrtQ s₁ = .ok s := by
      unfold aggregate_data at h
      rw [hfold] at h
      exact h
    unfold calcStatsE at h'
    cases hms : mapModelStats sqrtQ s₁.model_stats with
    | error e => rw [hms] at h'; exact absurd h' (by simp)
    | ok ms =>
      rw [hms] at h'
      have hs : s = ⟨ms, s₁.task_stats.map (fun p => (p.1, calcTaskStat sqrtQ p.2))⟩ := by
        simpa using h'.symm
      subst hs
      obtain ⟨hall, hmap⟩ := mapModelStats_shape hms
      constructor
      · intro p hp
        obtain ⟨q, hq, _, hcalc⟩ := hall p hp
        obtain ⟨hr, hacc, htot⟩ := calcModelStat_fields hcalc
        have hi := (hinv.1 q hq).1
        rw [hr, hacc, htot]
        exact hi
      · show (ms.map (fun p => p.2.total_runs)).sum = rs.length
        rw [hmap]
        simpa using hinv.2

/-- Witness for C3 at the concrete record `wRec1`. -/
theorem claim_C3_count_invariant_witness :
    foldRecords AggState.empty [wRec1] = .ok wState1 ∧
    ((∀ p ∈ wState1.model_stats,
      p.2.runs.length = p.2.accuracies.length ∧
      p.2.accuracies.length = p.2.total_runs) ∧
    (wState1.model_stats.map (fun p => p.2.total_runs)).sum = [wRec1].length) :=
  ⟨by rfl, claim_C3_count_invariant.1 [wRec1] wState1 (by rfl)⟩

/-! ## Claim C4: determinism -/

/-- C4: aggregation is deterministic — two passes started from the empty
tables and fed the same record sequence produce identical results, and two
metadata documents generated from the same state and run sequence differ only
in the generation timestamp. -/
theorem claim_C4_determinism (sqrtQ : ℚ → ℚ) (rs₁ rs₂ : List RunRecord)
    (h : rs₁ = rs₂) :
    aggregate_data sqrtQ AggState.empty rs₁ =
      aggregate_data sqrtQ AggState.empty rs₂ ∧
    (∀ (g₁ g₂ : String) (s : AggState) (runs : List RunRecord),
      { generate_metadata g₁ s runs with generated_at := g₂ } =
        generate_metadata g₂ s runs) := by
  subst h
  exact ⟨rfl, fun g₁ g₂ s runs => rfl⟩

/-- Witness for C4 at a concrete record list. -/
theorem claim_C4_determinism_witness :
    aggregate_data id AggState.empty [wRec1] =
      aggregate_data id AggState.empty [wRec1] ∧
    (∀ (g₁ g₂ : String) (s : AggState) (runs : List RunRecord),
      { generate_metadata g₁ s runs with generated_at := g₂ } =
        generate_metadata g₂ s runs) :=
  claim_C4_determinism id [wRec1] [wRec1] rfl

/-! ## Claim C5: mean, median, standard deviation -/

/-- C5: after the post-pass, every model's `avg_accuracy` is the arithmetic
mean of its accuracies, its `median_accuracy` is the middle element of the
ascending sort (average of the two middle elements for even counts, as
`pymedian` spells out), and its `std_accuracy` is the square root of the
Bessel-corrected sample variance when there are at least two accuracies and
exactly 0 when there are fewer. -/
theorem claim_C5_statistics (sqrtQ : ℚ → ℚ) (rs : List RunRecord)
    (s : AggState) (h : aggregate_data sqrtQ AggState.empty rs = .ok s) :
    ∀ p ∈ s.model_stats,
      p.2.avg_accuracy = p.2.accuracies.sum / p.2.accuracies.length ∧
      p.2.median_accuracy = pymedian p.2.accuracies ∧
      (2 ≤ p.2.accuracies.length →
        p.2.std_accuracy = sqrtQ ((p.2.accuracies.map
          (fun x => (x - p.2.accuracies.sum / p.2.accuracies.length) ^ 2)).sum /
          ((p.2.accuracies.length : ℚ) - 1))) ∧
      (p.2.accuracies.length < 2 → p.2.std_accuracy = 0) := by
  obtain ⟨s₁, hfold, hinv⟩ := foldRecords_ok rs Inv_empty
  have h' : calcStatsE sqrtQ s₁ = .ok s := by
    unfold aggregate_data at h
    rw [hfold] at h
    exact h
  unfold calcStatsE at h'
  cases hms : mapModelStats sqrtQ s₁.model_stats with
  | error e => rw [hms] at h'; exact absurd h' (by simp)
  | ok ms =>
    rw [hms] at h'
    have hs : s = ⟨ms, s₁.task_stats.map (fun p => (p.1, calcTaskStat sqrtQ p.2))⟩ := by
      simpa using h'.symm
    subst hs
    obtain ⟨hall, _⟩ := mapModelStats_shape hms
    intro p hp
    obtain ⟨q, hq, _, hcalc⟩ := hall p hp
    have hne : q.2.accuracies ≠ [] := by
      intro hnil
      obtain ⟨hi1, hi2⟩ := (hinv.1 q hq).1
      have ht := (hinv.1 q hq).2.1
      rw [hnil] at hi2
      simp at hi2
      exact ht hi2.symm
    obtain ⟨havg, hmed, hstd⟩ := calcModelStat_stats hcalc hne
    obtain ⟨_, hacc, _⟩ := calcModelStat_fields hcalc
    rw [hacc, havg, hmed, hstd]
    refine ⟨rfl, rfl, ?_, ?_⟩
    · intro h2
      rw [if_pos (by omega)]
      simp [pystdev, besselVar, pymean]
    · intro h2
      rw [if_neg (by omega)]

/-- Witness for C5: the four-run model with accuracies 0.2, 0.4, 0.6, 0.8,
whose median comes out as 0.5. -/
theorem claim_C5_statistics_witness :
    aggregate_data id AggState.empty rsW5 = .ok wState5 ∧
    (∀ p ∈ wState5.model_stats,
      p.2.avg_accuracy = p.2.accuracies.sum / p.2.accuracies.length ∧
      p.2.median_accuracy = pymedian p.2.accuracies ∧
      (2 ≤ p.2.accuracies.length →
        p.2.std_accuracy = id ((p.2.accuracies.map
          (fun x => (x - p.2.accuracies.sum / p.2.accuracies.length) ^ 2)).sum /
          ((p.2.accuracies.length : ℚ) - 1))) ∧
      (p.2.accuracies.length < 2 → p.2.std_accuracy = 0)) ∧
    (alFind wState5.model_stats "m").map (fun st => st.median_accuracy) =
      some (1/2) :=
  ⟨by decide, claim_C5_statistics id rsW5 wState5 (by decide), by decide⟩

/-! ## Stability of the sort -/

theorem filter_insertSorted_pos {α : Type} (le : α → α → Bool) (p : α → Bool)
    (x : α) (hx : p x = true) (hle : ∀ y, p y = true → le x y = true) :
    ∀ l : List α, (insertSorted le x l).filter p = x :: l.filter p
  | [] => by simp [insertSorted, hx]
  | y :: ys => by
    by_cases hxy : le x y = true
    · simp [insertSorted, hxy, List.filter_cons, hx]
    · have hpy : p y = false := by
        cases hpy : p y
        · rfl
        · exact absurd (hle y hpy) hxy
      simp only [insertSorted, hxy, if_false, Bool.false_eq_true, List.filter_cons,
        hpy, filter_insertSorted_pos le p x hx hle ys]

theorem filter_insertSorted_neg {α : Type} (le : α → α → Bool) (p : α → Bool)
    (x : α) (hx : p x = false) :
    ∀ l : List α, (insertSorted le x l).filter p = l.filter p
  | [] => by simp [insertSorted, hx]
  | y :: ys => by
    by_cases hxy : le x y = true
    · simp [insertSorted, hxy, List.filter_cons, hx]
    · simp only [insertSorted, hxy, if_false, Bool.false_eq_true, List.filter_cons,
        filter_insertSorted_neg le p x hx ys]

/-- Stability: sorting does not reorder the elements selected by a predicate
that is total for the comparator (e.g. all elements sharing one key value). -/
theorem filter_stableSortBy {α : Type} (le : α → α → Bool) (p : α → Bool)
    (hle : ∀ a b, p a = true → p b = true → le a b = true) :
    ∀ l : List α, (stableSortBy le l).filter p = l.filter p
  | [] => rfl
  | x :: xs => by
    cases hx : p x with
    | false =>
      rw [stableSortBy, filter_insertSorted_neg le p x hx,
        filter_stableSortBy le p hle xs, List.filter_cons]
      simp [hx]
    | true =>
      rw [stableSortBy, filter_insertSorted_pos le p x hx (fun y hy => hle x y hx hy),
        filter_stableSortBy le p hle xs, List.filter_cons]
      simp [hx]

/-- Stability of `pysorted` in both directions: elements with one key value
keep their input order. -/
theorem filter_pysorted {α κ : Type} [LinearOrder κ] (key : α → κ) (rev : Bool)
    (v : κ) (l : List α) :
    (pysorted key rev l).filter (fun x => decide (key x = v)) =
      l.filter (fun x => decide (key x = v)) := by
  refine filter_stableSortBy _ _ ?_ l
  intro a b ha hb
  have ha' : key a = v := of_decide_eq_true ha
  have hb' : key b = v := of_decide_eq_true hb
  cases rev <;> simp [ha', hb']

/-! ## Lemmas about `filter_runs` -/

/-- The model-filter guard, as the negation of the positive predicate. -/
theorem model_cond_eq (mf : Option String) (r : RunRecord) :
    (optTruthy mf &&
      !(strIn (lowerStr (mf.getD "")) (lowerStr (r.model_name.getD "")))) =
    !(match mf with
      | none => true
      | some f => f.isEmpty ||
          strIn (lowerStr f) (lowerStr (r.model_name.getD ""))) := by
  rcases mf with _ | f <;> simp [optTruthy]

/-- The task-filter guard, as the negation of the positive predicate. -/
theorem task_cond_eq (tf : Option String) (r : RunRecord) :
    (optTruthy tf && !(decide ((tf.getD "") ∈ r.results.map (·.1)))) =
    !(match tf with
      | none => true
      | some t => t.isEmpty || decide (t ∈ r.results.map (·.1))) := by
  rcases tf with _ | t <;> simp [optTruthy]

/-- The minimum-accuracy guard, as the negation of the inclusive bound. -/
theorem min_cond_eq (mn : Option ℚ) (r : RunRecord) :
    (match mn with
     | some v => decide (r.average_accuracy < v)
     | none => false) =
    !(match mn with
      | none => true
      | some v => decide (v ≤ r.average_accuracy)) := by
  rcases mn with _ | v <;> simp [← decide_not, not_le]

/-- The maximum-accuracy guard, as the negation of the inclusive bound. -/
theorem max_cond_eq (mx : Option ℚ) (r : RunRecord) :
    (match mx with
     | some v => decide (r.average_accuracy > v)
     | none => false) =
    !(match mx with
      | none => true
      | some v => decide (r.average_accuracy ≤ v)) := by
  rcases mx with _ | v <;> simp [← decide_not, not_le]

/-- With no date criteria, one record's check is pure: it is the conjunction
of the model-substring, task-membership and accuracy-bound tests (empty-string
filters skipped by Python truthiness), and never logs. -/
theorem checkRecord_no_dates {D : Type} [LinearOrder D]
    (parse : String → Option D) (mf tf : Option String) (mn mx : Option ℚ)
    (r : RunRecord) :
    checkRecord parse mf tf mn mx none none r =
      ((match mf with
        | none => true
        | some f => f.isEmpty ||
            strIn (lowerStr f) (lowerStr (r.model_name.getD ""))) &&
       (match tf with
        | none => true
        | some t => t.isEmpty || decide (t ∈ r.results.map (·.1))) &&
       (match mn with
        | none => true
        | some v => decide (v ≤ r.average_accuracy)) &&
       (match mx with
        | none => true
        | some v => decide (r.average_accuracy ≤ v)), []) := by
  unfold checkRecord
  rw [model_cond_eq, task_cond_eq, min_cond_eq, max_cond_eq]
  set p1 : Bool := (match mf with
    | none => true
    | some f => f.isEmpty ||
        strIn (lowerStr f) (lowerStr (r.model_name.getD ""))) with hp1
  set p2 : Bool := (match tf with
    | none => true
    | some t => t.isEmpty || decide (t ∈ r.results.map (·.1))) with hp2
  set p3 : Bool := (match mn with
    | none => true
    | some v => decide (v ≤ r.average_accuracy)) with hp3
  set p4 : Bool := (match mx with
    | none => true
    | some v => decide (r.average_accuracy ≤ v)) with hp4
  cases p1 <;> cases p2 <;> cases p3 <;> cases p4 <;> simp [optTruthy]

/-- Membership in the filtered output is membership in the input plus the
record's own check succeeding. -/
theorem mem_filter_runs {D : Type} [LinearOrder D] (parse : String → Option D)
    (mf tf : Option String) (mn mx : Option ℚ) (sd ed : Option String)
    (r : RunRecord) :
    ∀ runs : List RunRecord,
      r ∈ (filter_runs parse runs mf tf mn mx sd ed).1 ↔
        r ∈ runs ∧ (checkRecord parse mf tf mn mx sd ed r).1 = true
  | [] => by simp [filter_runs]
  | r₀ :: rest => by
    simp only [filter_runs]
    by_cases hc : (checkRecord parse mf tf mn mx sd ed r₀).1 = true
    · simp only [hc, if_true]
      constructor
      · intro hm
        rcases List.mem_cons.mp hm with hm | hm
        · subst hm
          exact ⟨List.mem_cons_self _ _, hc⟩
        · obtain ⟨h₁, h₂⟩ := (mem_filter_runs parse mf tf mn mx sd ed r rest).mp hm
          exact ⟨List.mem_cons_of_mem _ h₁, h₂⟩
      · intro ⟨hm, hck⟩
        rcases List.mem_cons.mp hm with hm | hm
        · subst hm
          exact List.mem_cons_self _ _
        · exact List.mem_cons_of_mem _
            ((mem_filter_runs parse mf tf mn mx sd ed r rest).mpr ⟨hm, hck⟩)
    · simp only [hc, if_false]
      rw [Bool.not_eq_true] at hc
      constructor
      · intro hm
        obtain ⟨h₁, h₂⟩ := (mem_filter_runs parse mf tf mn mx sd ed r rest).mp hm
        exact ⟨List.mem_cons_of_mem _ h₁, h₂⟩
      · intro ⟨hm, hck⟩
        rcases List.mem_cons.mp hm with hm | hm
        · subst hm
          rw [hck] at hc
          cases hc
        · exact (mem_filter_runs parse mf tf mn mx sd ed r rest).mpr ⟨hm, hck⟩

/-- The entry in `findWandbUrl` is the first entry found by the truthy-name
substring test. -/
theorem findWandbUrl_eq_find (rid : String) :
    ∀ h : List WandbEntry, findWandbUrl rid h =
      (h.find? (fun e => match e.name with
        | some nm => !nm.isEmpty && strIn rid nm
        | none => false)).map (fun e => e.url)
  | [] => rfl
  | e :: t => by
    by_cases hc : (match e.name with
        | some nm => !nm.isEmpty && strIn rid nm
        | none => false) = true
    · simp [findWandbUrl, List.find?_cons, hc]
    · rw [Bool.not_eq_true] at hc
      simp [findWandbUrl, List.find?_cons, hc, findWandbUrl_eq_find rid t]

/-! ## Claim C1: accuracy extraction (corrected) -/

/-- C1 counterexample: the claimed extraction chain would read `acc` when
`accuracy` is absent, but `aggregate_data` appends
`task_results.get("accuracy", 0)`, so a record whose task result is keyed
`acc` with value 1/2 contributes the accuracy 0 to the task's triple list and
to the model's per-task list — the claimed fallback chain (which yields 1/2
here) does not exist in the code. -/
theorem claim_C1_counterexample :
    foldRecords AggState.empty [cRec1] = .ok cState1 ∧
    (alGetD cState1.task_stats "t" TaskStat.init).accuracies =
      [⟨"m1", 0, "r1"⟩] ∧
    alGetD (alGetD cState1.model_stats "m1" ModelStat.init).task_results "t"
      (.lst []) = .lst [0] ∧
    specExtractAccuracy [("acc", 1/2)] = 1/2 ∧ (0 : ℚ) ≠ 1/2 := by decide

/-- C1 (amended): for every record folded by `aggregate_data` and every
`(task_name, task_result)` pair in its `results`, the scalar appended to the
model's per-task list and to the task's triple list is the value under the
single field name `accuracy`, and 0 if that key is absent — there is no `acc`
or normalized-key fallback. -/
theorem claim_C1_extraction (s : AggState) (run : RunRecord) (s' : AggState)
    (h : stepRecord s run = .ok s') :
    (∀ t : String, (alGetD s'.task_stats t TaskStat.init).accuracies =
      (alGetD s.task_stats t TaskStat.init).accuracies ++
        (run.results.filter (fun p => p.1 = t)).map
          (fun p => ⟨run.model_name.getD "unknown",
            (alFind p.2 "accuracy").getD 0, run.resolvedId⟩)) ∧
    (∀ (t : String) (l : List ℚ),
      alGetD (alGetD s.model_stats (run.model_name.getD "unknown")
        ModelStat.init).task_results t (.lst []) = .lst l →
      alGetD (alGetD s'.model_stats (run.model_name.getD "unknown")
        ModelStat.init).task_results t (.lst []) =
        .lst (l ++ (run.results.filter (fun p => p.1 = t)).map
          (fun p => (alFind p.2 "accuracy").getD 0))) := by
  simp only [stepRecord] at h
  cases hf : foldTasks (run.model_name.getD "unknown") run.resolvedId
      (bumpModel run.resolvedId run.average_accuracy run.timestamp
        (alGetD s.model_stats (run.model_name.getD "unknown") ModelStat.init),
       s.task_stats) run.results with
  | error e => rw [hf] at h; simp at h
  | ok pr =>
    rw [hf] at h
    obtain ⟨ms', ts'⟩ := pr
    have hs' : s' = ⟨alStore s.model_stats (run.model_name.getD "unknown") ms', ts'⟩ := by
      simpa using h.symm
    subst hs'
    constructor
    · intro t
      exact foldTasks_triples _ _ _ _ _ _ _ hf t
    · intro t l hl
      rw [alGetD_alStore_self]
      refine foldTasks_model_lists _ _ _ _ _ _ _ hf t l ?_
      rw [bumpModel_task_results]
      exact hl

/-- Witness for the amended C1 at a concrete record. -/
theorem claim_C1_extraction_witness :
    stepRecord AggState.empty wRec1 = .ok wState1 ∧
    ((∀ t : String, (alGetD wState1.task_stats t TaskStat.init).accuracies =
      (alGetD AggState.empty.task_stats t TaskStat.init).accuracies ++
        (wRec1.results.filter (fun p => p.1 = t)).map
          (fun p => ⟨wRec1.model_name.getD "unknown",
            (alFind p.2 "accuracy").getD 0, wRec1.resolvedId⟩)) ∧
    (∀ (t : String) (l : List ℚ),
      alGetD (alGetD AggState.empty.model_stats (wRec1.model_name.getD "unknown")
        ModelStat.init).task_results t (.lst []) = .lst l →
      alGetD (alGetD wState1.model_stats (wRec1.model_name.getD "unknown")
        ModelStat.init).task_results t (.lst []) =
        .lst (l ++ (wRec1.results.filter (fun p => p.1 = t)).map
          (fun p => (alFind p.2 "accuracy").getD 0)))) :=
  ⟨by decide, claim_C1_extraction AggState.empty wRec1 wState1 (by decide)⟩

/-! ## Claim C2: rounding in the metadata document (corrected) -/

/-- C2 counterexample: the metadata document emits the `best_run` snapshot
with its accuracy at full precision — for a run with average accuracy
0.123456 the emitted `best_run.accuracy` is exactly 0.123456, which is not a
4-decimal-rounded value. -/
theorem claim_C2_counterexample :
    (alFind cMeta2.models "m1").map (fun mm => mm.best_run) =
      some (some ⟨"r1", 123456/1000000, "t1"⟩) ∧
    round4 (123456/1000000) ≠ 123456/1000000 := by decide

/-- C2 (amended): `generate_metadata` rounds to 4 decimal places exactly the
model-level `avg`/`std`/`median` accuracies, the task-level `avg`/`std`
accuracies and each run summary's average accuracy; the `best_run` and
`worst_run` snapshots, the `task_performance` table and the per-task
`best_model`/`worst_model` means are emitted at the full precision stored in
the aggregator's internal statistics, which the emitter does not modify. -/
theorem claim_C2_rounding (g : String) (s : AggState) (runs : List RunRecord) :
    (∀ (m : String) (st : ModelStat), alFind s.model_stats m = some st →
      alFind (generate_metadata g s runs).models m = some
        ⟨st.total_runs, round4 st.avg_accuracy, round4 st.std_accuracy,
         round4 st.median_accuracy, st.best_run, st.worst_run,
         st.task_results⟩) ∧
    (∀ (t : String) (st : TaskStat), alFind s.task_stats t = some st →
      alFind (generate_metadata g s runs).tasks t = some
        ⟨st.accuracies.length, st.models.length, round4 st.avg_accuracy,
         round4 st.std_accuracy, st.best_model, st.worst_model⟩) ∧
    (generate_metadata g s runs).runs = runs.map (fun run =>
      ⟨run.resolvedId, run.model_name.getD "unknown", run.timestamp,
       round4 run.average_accuracy, run.results.map (·.1),
       (findWandbUrl run.resolvedId run.wandb_history).getD none⟩) := by
  refine ⟨?_, ?_, rfl⟩
  · intro m st hf
    show alFind (s.model_stats.map (fun p => (p.1, modelMetaOf p.2))) m = _
    rw [alFind_map, hf]
    rfl
  · intro t st hf
    show alFind (s.task_stats.map (fun p => (p.1, taskMetaOf p.2))) t = _
    rw [alFind_map, hf]
    rfl

/-- Witness for the amended C2 at the state aggregated from `[wRec1]`. -/
theorem claim_C2_rounding_witness :
    alFind wState10.model_stats "m1" = some wStat2 ∧
    alFind (generate_metadata "g" wState10 [wRec1]).models "m1" = some
      ⟨wStat2.total_runs, round4 wStat2.avg_accuracy, round4 wStat2.std_accuracy,
       round4 wStat2.median_accuracy, wStat2.best_run, wStat2.worst_run,
       wStat2.task_results⟩ :=
  ⟨by decide, (claim_C2_rounding "g" wState10 [wRec1]).1 "m1" wStat2 (by decide)⟩

/-! ## Claim C10: a second pass without clearing raises -/

/-- C10: after a full pass from empty state, the model of any folded record
has each of that record's tasks summarized into an `avg`/`std`/`samples`
entry, and a second `aggregate_data` call on the same (uncleared) state that
starts with such a record raises instead of accumulating. -/
theorem claim_C10_repass_raises (sqrtQ : ℚ → ℚ) (rs : List RunRecord)
    (s : AggState) (h : aggregate_data sqrtQ AggState.empty rs = .ok s)
    (r : RunRecord) (hr : r ∈ rs) (t : String) (tr : List (String × ℚ))
    (ht : (t, tr) ∈ r.results) :
    (∃ a b n, alGetD (alGetD s.model_stats (r.model_name.getD "unknown")
      ModelStat.init).task_results t (.lst []) = .summary a b n) ∧
    ∀ rest : List RunRecord, ∃ e,
      aggregate_data sqrtQ s (r :: rest) = .error e := by
  obtain ⟨s₁, hfold, hinv⟩ := foldRecords_ok rs Inv_empty
  have h' : calcStatsE sqrtQ s₁ = .ok s := by
    unfold aggregate_data at h
    rw [hfold] at h
    exact h
  unfold calcStatsE at h'
  cases hms : mapModelStats sqrtQ s₁.model_stats with
  | error e => rw [hms] at h'; exact absurd h' (by simp)
  | ok ms =>
    rw [hms] at h'
    have hs : s = ⟨ms, s₁.task_stats.map (fun p => (p.1, calcTaskStat sqrtQ p.2))⟩ := by
      simpa using h'.symm
    subst hs
    obtain ⟨l, hlne, hl⟩ := foldRecords_creates hfold hr ht
    set mn := r.model_name.getD "unknown" with hmn
    have hfind : alFind s₁.model_stats mn = some (alGetD s₁.model_stats mn ModelStat.init) := by
      cases hx : alFind s₁.model_stats mn with
      | none =>
        exfalso
        have hinit : alGetD s₁.model_stats mn ModelStat.init = ModelStat.init := by
          simp [alGetD, hx]
        rw [hinit] at hl
        simp [ModelStat.init, alGetD, alFind] at hl
        exact hlne hl
      | some st => simp [alGetD, hx]
    set st₁ := alGetD s₁.model_stats mn ModelStat.init with hst₁
    have hmem : (mn, st₁) ∈ s₁.model_stats := alFind_mem hfind
    have hane : st₁.accuracies ≠ [] := by
      intro hnil
      obtain ⟨hi1, hi2⟩ := (hinv.1 _ hmem).1
      have htot := (hinv.1 _ hmem).2.1
      rw [hnil] at hi2
      simp at hi2
      exact htot hi2.symm
    obtain ⟨st₂, hfind₂, hcalc⟩ := mapModelStats_find hms hfind
    have hentry : alFind st₁.task_results t = some (.lst l) := by
      cases hx : alFind st₁.task_results t with
      | none =>
        exfalso
        have hinit : alGetD st₁.task_results t (.lst []) = .lst [] := by
          simp [alGetD, hx]
        rw [hinit] at hl
        simp at hl
        exact hlne hl
      | some e₀ =>
        have heq : alGetD st₁.task_results t (.lst []) = e₀ := by
          simp [alGetD, hx]
        rw [heq] at hl
        rw [hl]
    unfold calcModelStat at hcalc
    rw [if_neg hane] at hcalc
    cases htr : mapTaskResults sqrtQ st₁.task_results with
    | error e => rw [htr] at hcalc; simp at hcalc
    | ok tr₂ =>
      rw [htr] at hcalc
      have hst₂ : st₂ = { st₁ with
          avg_accuracy := pymean st₁.accuracies,
          median_accuracy := pymedian st₁.accuracies,
          std_accuracy :=
            if st₁.accuracies.length > 1 then pystdev sqrtQ st₁.accuracies else 0,
          task_results := tr₂ } := by
        simpa using hcalc.symm
      obtain ⟨e₂, hfind₃, hsum⟩ := mapTaskResults_find htr hentry
      have hsummary : ∃ a b n, e₂ = .summary a b n := by
        cases l with
        | nil => exact absurd rfl hlne
        | cons a as =>
          refine ⟨pymean (a :: as),
            if (a :: as).length > 1 then pystdev sqrtQ (a :: as) else 0,
            (a :: as).length, ?_⟩
          have : summarizeTask sqrtQ (.lst (a :: as)) = .ok (.summary (pymean (a :: as))
            (if (a :: as).length > 1 then pystdev sqrtQ (a :: as) else 0)
            (a :: as).length) := by simp [summarizeTask]
          rw [this] at hsum
          simpa using hsum.symm
      obtain ⟨a, b, n, he₂⟩ := hsummary
      have hout : alGetD (alGetD (⟨ms, s₁.task_stats.map
          (fun p => (p.1, calcTaskStat sqrtQ p.2))⟩ : AggState).model_stats mn
          ModelStat.init).task_results t (.lst []) = .summary a b n := by
        show alGetD (alGetD ms mn ModelStat.init).task_results t (.lst []) = _
        have hms₂ : alGetD ms mn ModelStat.init = st₂ := by simp [alGetD, hfind₂]
        rw [hms₂, hst₂]
        show alGetD tr₂ t (.lst []) = _
        have he : alGetD tr₂ t (.lst []) = e₂ := by simp [alGetD, hfind₃]
        rw [he, he₂]
      refine ⟨⟨a, b, n, hout⟩, ?_⟩
      intro rest
      have hts : t ∈ r.results.map (·.1) := by
        simpa using List.mem_map_of_mem (·.1) ht
      have hstep : ∃ e, stepRecord (⟨ms, s₁.task_stats.map
          (fun p => (p.1, calcTaskStat sqrtQ p.2))⟩ : AggState) r = .error e := by
        simp only [stepRecord]
        obtain ⟨e', hferr⟩ := foldTasks_summary_error mn r.resolvedId r.results
          (bumpModel r.resolvedId r.average_accuracy r.timestamp
            (alGetD ms mn ModelStat.init))
          (s₁.task_stats.map (fun p => (p.1, calcTaskStat sqrtQ p.2)))
          t ⟨a, b, n, by rw [bumpModel_task_results]; exact hout⟩ hts
        rw [← hmn, hferr]
        exact ⟨e', rfl⟩
      obtain ⟨e, he⟩ := hstep
      refine ⟨e, ?_⟩
      unfold aggregate_data foldRecords
      rw [he]

/-- Witness for C10: aggregate `[wRec1]`, then feed `wRec1` again. -/
theorem claim_C10_repass_raises_witness :
    aggregate_data id AggState.empty [wRec1] = .ok wState10 ∧
    wRec1 ∈ [wRec1] ∧ ("t", [("accuracy", 3/10)]) ∈ wRec1.results ∧
    ((∃ a b n, alGetD (alGetD wState10.model_stats
      (wRec1.model_name.getD "unknown") ModelStat.init).task_results "t"
      (.lst []) = .summary a b n) ∧
    ∀ rest : List RunRecord, ∃ e,
      aggregate_data id wState10 (wRec1 :: rest) = .error e) :=
  ⟨by decide, by decide, by decide,
   claim_C10_repass_raises id [wRec1] wState10 (by decide) wRec1 (by decide)
     "t" [("accuracy", 3/10)] (by decide)⟩

/-! ## Claim C6: filter semantics (corrected) -/

/-- C6 counterexample: `filter_runs` with the empty-string task filter keeps a
record although the empty string is not a key of its `results` — Python
truthiness treats the empty-string filter as absent, while the claim as
stated requires exact key membership for every supplied filter. -/
theorem claim_C6_counterexample :
    (filter_runs parseNone [cRec6] none (some "") none none none none).1 =
      [cRec6] ∧
    [cRec6].filter (claimC6Keep none (some "") none none) = [] := by decide

/-- C6 (amended): with no date criteria, `filter_runs` returns exactly the
input records satisfying the conjunction of the supplied criteria, in their
input order, and logs nothing; a record survives a *non-empty* model filter
iff it is a case-insensitive substring of the model name, survives a
*non-empty* task filter iff the task is exactly a key of its results, and
survives the bounds iff `min_accuracy ≤ average_accuracy ≤ max_accuracy`
(inclusive); an empty-string model or task filter is treated as absent. -/
theorem claim_C6_filter {D : Type} [LinearOrder D] (parse : String → Option D)
    (runs : List RunRecord) (model_filter task_filter : Option String)
    (min_accuracy max_accuracy : Option ℚ) :
    filter_runs parse runs model_filter task_filter min_accuracy max_accuracy
      none none =
      (runs.filter (fun run =>
        (match model_filter with
         | none => true
         | some f => f.isEmpty ||
             strIn (lowerStr f) (lowerStr (run.model_name.getD ""))) &&
        (match task_filter with
         | none => true
         | some t => t.isEmpty || decide (t ∈ run.results.map (·.1))) &&
        (match min_accuracy with
         | none => true
         | some v => decide (v ≤ run.average_accuracy)) &&
        (match max_accuracy with
         | none => true
         | some v => decide (run.average_accuracy ≤ v))), []) := by
  induction runs with
  | nil => rfl
  | cons r rest ih =>
    simp only [filter_runs, List.filter_cons]
    rw [checkRecord_no_dates, ih]
    by_cases hp : ((match model_filter with
         | none => true
         | some f => f.isEmpty ||
             strIn (lowerStr f) (lowerStr (r.model_name.getD ""))) &&
        (match task_filter with
         | none => true
         | some t => t.isEmpty || decide (t ∈ r.results.map (·.1))) &&
        (match min_accuracy with
         | none => true
         | some v => decide (v ≤ r.average_accuracy)) &&
        (match max_accuracy with
         | none => true
         | some v => decide (r.average_accuracy ≤ v))) = true
    · simp [hp]
    · rw [Bool.not_eq_true] at hp
      simp [hp]

/-! ## Claim C7: date filter passthrough (corrected) -/

/-- C7 counterexample: with an active start-date criterion, a record whose
timestamp is absent/empty passes through with *no* logged warning — the
warning is only logged on the parse-failure path, which an empty timestamp
never reaches, while the claim as stated promises a warning for
absent/empty timestamps as well. -/
theorem claim_C7_counterexample :
    filter_runs parseNone [cRec7] none none none none (some "2024-01-01")
      none = ([cRec7], []) := by decide

/-- C7 (amended): a record whose timestamp is absent/empty or fails to parse
is never excluded by an active date filter: it passes through (subject to the
other criteria), with a warning logged exactly when the timestamp is
non-empty (i.e. when the parse actually failed); an absent/empty timestamp
passes silently. -/
theorem claim_C7_date_passthrough {D : Type} [LinearOrder D]
    (parse : String → Option D) (mf tf : Option String) (mn mx : Option ℚ)
    (sd ed : Option String) (r : RunRecord) (runs : List RunRecord)
    (hactive : (optTruthy sd || optTruthy ed) = true)
    (hother : checkRecord parse mf tf mn mx none none r = (true, []))
    (hbad : r.timestamp = "" ∨ parse (replaceZ r.timestamp) = none) :
    checkRecord parse mf tf mn mx sd ed r =
      (true, if r.timestamp = "" then [] else [⟨r.run_id, r.timestamp⟩]) ∧
    (r ∈ runs → r ∈ (filter_runs parse runs mf tf mn mx sd ed).1) := by
  rw [checkRecord_no_dates] at hother
  have hP := (Prod.mk.injEq _ _ _ _).mp hother |>.1
  simp only [Bool.and_eq_true] at hP
  obtain ⟨⟨⟨h1, h2⟩, h3⟩, h4⟩ := hP
  have hmain : checkRecord parse mf tf mn mx sd ed r =
      (true, if r.timestamp = "" then [] else [⟨r.run_id, r.timestamp⟩]) := by
    unfold checkRecord
    rw [model_cond_eq, task_cond_eq, min_cond_eq, max_cond_eq,
      h1, h2, h3, h4]
    simp only [Bool.not_true, if_false, Bool.false_eq_true, hactive, if_true]
    by_cases hts : r.timestamp = ""
    · simp [hts, String.isEmpty_iff]
    · have hparse : parse (replaceZ r.timestamp) = none := by
        rcases hbad with hbad | hbad
        · exact absurd hbad hts
        · exact hbad
      simp [String.isEmpty_iff, hts, dateEval, hparse]
  refine ⟨hmain, fun hr => ?_⟩
  refine (mem_filter_runs parse mf tf mn mx sd ed r runs).mpr ⟨hr, ?_⟩
  rw [hmain]

/-- Witness for the amended C7: an unparseable timestamp with an active start
date passes through with one warning. -/
theorem claim_C7_date_passthrough_witness :
    (optTruthy (some "2024-01-01") || optTruthy none) = true ∧
    checkRecord parseNone none none none none none none wRec7 = (true, []) ∧
    (wRec7.timestamp = "" ∨ parseNone (replaceZ wRec7.timestamp) = none) ∧
    (checkRecord parseNone none none none none (some "2024-01-01") none wRec7 =
      (true, if wRec7.timestamp = "" then []
             else [⟨wRec7.run_id, wRec7.timestamp⟩]) ∧
    (wRec7 ∈ [wRec7] →
      wRec7 ∈ (filter_runs parseNone [wRec7] none none none none
        (some "2024-01-01") none).1)) :=
  ⟨by decide, by decide, Or.inr (by decide),
   claim_C7_date_passthrough parseNone none none none none (some "2024-01-01")
     none wRec7 [wRec7] (by decide) (by decide) (Or.inr (by decide))⟩

/-! ## Claim C8: stable sort -/

/-- C8: `sort_runs` is stable for each of the three keys in either direction
— the records sharing any one key value appear in the output in their input
order — and an unknown sort key degrades to the timestamp key with the
warning flag set. -/
theorem claim_C8_stable_sort (runs : List RunRecord) (reverse : Bool) :
    (∀ v : String,
      (sort_runs runs "timestamp" reverse).1.filter
          (fun r => decide (r.timestamp = v)) =
        runs.filter (fun r => decide (r.timestamp = v))) ∧
    (∀ q : ℚ,
      (sort_runs runs "accuracy" reverse).1.filter
          (fun r => decide (r.average_accuracy = q)) =
        runs.filter (fun r => decide (r.average_accuracy = q))) ∧
    (∀ v : String,
      (sort_runs runs "model" reverse).1.filter
          (fun r => decide (r.model_name.getD "" = v)) =
        runs.filter (fun r => decide (r.model_name.getD "" = v))) ∧
    (∀ k : String, k ∉ (["timestamp", "accuracy", "model"] : List String) →
      sort_runs runs k reverse = ((sort_runs runs "timestamp" reverse).1, true)) := by
  refine ⟨?_, ?_, ?_, ?_⟩
  · intro v
    show (pysorted (fun r : RunRecord => r.timestamp) reverse runs).filter _ = _
    refine filter_stableSortBy _ _ ?_ runs
    intro a b ha hb
    have ha' : a.timestamp = v := of_decide_eq_true ha
    have hb' : b.timestamp = v := of_decide_eq_true hb
    cases reverse <;> simp [ha', hb']
  · intro q
    show (pysorted (fun r : RunRecord => r.average_accuracy) reverse runs).filter _ = _
    refine filter_stableSortBy _ _ ?_ runs
    intro a b ha hb
    have ha' : a.average_accuracy = q := of_decide_eq_true ha
    have hb' : b.average_accuracy = q := of_decide_eq_true hb
    cases reverse <;> simp [ha', hb']
  · intro v
    show (pysorted (fun r : RunRecord => r.model_name.getD "") reverse runs).filter _ = _
    refine filter_stableSortBy _ _ ?_ runs
    intro a b ha hb
    have ha' : a.model_name.getD "" = v := of_decide_eq_true ha
    have hb' : b.model_name.getD "" = v := of_decide_eq_true hb
    cases reverse <;> simp [ha', hb']
  · intro k hk
    have h1 : ¬(k = "timestamp") := fun h => hk (by simp [h])
    have h2 : ¬(k = "accuracy") := fun h => hk (by simp [h])
    have h3 : ¬(k = "model") := fun h => hk (by simp [h])
    simp [sort_runs, h1, h2, h3]

/-- Witness for C8 at two records with equal accuracy and an unknown key. -/
theorem claim_C8_stable_sort_witness :
    (sort_runs [sRecA, sRecB] "accuracy" true).1.filter
        (fun r => decide (r.average_accuracy = 1/2)) =
      [sRecA, sRecB].filter (fun r => decide (r.average_accuracy = 1/2)) ∧
    ("zzz" ∉ (["timestamp", "accuracy", "model"] : List String) ∧
      sort_runs [sRecA, sRecB] "zzz" true =
        ((sort_runs [sRecA, sRecB] "timestamp" true).1, true)) :=
  ⟨(claim_C8_stable_sort [sRecA, sRecB] true).2.1 (1/2),
   by decide,
   (claim_C8_stable_sort [sRecA, sRecB] true).2.2.2 "zzz" (by decide)⟩

/-! ## Claim C9: the CSV export (corrected) -/

/-- C9 counterexample: the header row written by `export_csv` ends in
`W&B URL`, not the claimed `External URL`. -/
theorem claim_C9_counterexample :
    export_csv [] = [csvHeader] ∧ csvHeader ≠ specCsvHeader := by decide

/-- C9 (amended): the tabular export is the header row
`Run ID, Model, Timestamp, Average Accuracy, Tasks, Task Count, W&B URL`
followed by exactly one row per run with the run identifier, model name,
timestamp, accuracy rounded to 4 decimals, comma-joined task list, task
count, and the resolved URL — empty when no history entry with a non-empty
name contains the run identifier, the first matching entry's URL (or empty if
that entry has no URL) otherwise. -/
theorem claim_C9_csv (runs : List RunRecord) :
    export_csv runs = csvHeader :: runs.map (fun run =>
      [CsvCell.str run.resolvedId, CsvCell.str (run.model_name.getD "unknown"),
       CsvCell.str run.timestamp, CsvCell.rat (round4 run.average_accuracy),
       CsvCell.str (String.intercalate ", " (run.results.map (·.1))),
       CsvCell.nat (run.results.map (·.1)).length,
       CsvCell.str (match run.wandb_history.find? (fun e => match e.name with
         | some nm => !nm.isEmpty && strIn run.resolvedId nm
         | none => false) with
         | some e => e.url.getD ""
         | none => "")]) := by
  unfold export_csv
  congr 1
  refine List.map_congr_left ?_
  intro run _
  cases hx : run.wandb_history.find? (fun e => match e.name with
      | some nm => !nm.isEmpty && strIn run.resolvedId nm
      | none => false) with
  | none => simp [csvRowOf, findWandbUrl_eq_find, hx]
  | some e => simp [csvRowOf, findWandbUrl_eq_find, hx]

end SndBench
